import Mathlib

/-!
# chatty: client session state and relay gateway

A shallow embedding of `src/client/main.go` (the terminal client: `Model.Update`,
`SendText`, `TypingObserver`, `RecvMessage`) and `src/server/main.go` (the gateway:
`WsServer.Chat`, `WsServer.AllActiveUsers`).

Conventions of the embedding.

* Go `int` is `Int`; slice lengths are far below `2^63`, so no wrap-around is modelled.
* A Go `map[string]*TypeInfo` is an association list; entries are held by pointer in
  the source, so an update made while ranging over the map is an update of the entry.
* A run-time panic (index out of range) is the result `none`.
* `encoding/json`, the widgets of `bubbles`, `lipgloss` and the clock are libraries
  outside the repository.  They enter as parameters: `Codec` for JSON, `Env` for the
  widgets, the style renderer and `TimeStamp()`.
* `tea.Batch` of commands is the list of the commands batched (a `nil` command is
  the empty list).
* Contexts made by `context.WithCancel` are named by their order of creation:
  `InitialModel` makes context `0` and each later one is the successor of the
  context it replaces in `Model.TypingCtx`.
-/

namespace Chatty

/-! ## Wire types (both programs declare the same ones) -/

/-- Go `MessageWrapper`; `W` is the type of raw bytes (`json.RawMessage`, a frame). -/
structure MessageWrapper (W : Type) where
  Typ : String
  Value : W
deriving DecidableEq, Repr

/-- Go `ChatMessage`. -/
structure ChatMessage where
  To : String
  From : String
  Text : String
  Color : Int
deriving DecidableEq, Repr

/-- Go `TypingMessage`. -/
structure TypingMessage where
  IsTyping : Bool
  To : String
  Color : Int
  From : String
deriving DecidableEq, Repr

/-- Outcome of a `json.Unmarshal` or `json.Marshal` call: `val` is what the
destination holds after the call (Go fills what it can even when it reports an
error), `err` is true when the returned error is not nil. -/
structure Decoded (α : Type) where
  val : α
  err : Bool
deriving DecidableEq, Repr

/-- The calls into `encoding/json` made by the two programs.  Every `Unmarshal` in
the source targets a freshly allocated zero value, so its outcome is a function of
the bytes alone. -/
structure Codec (W : Type) where
  UnmarshalWrapper : W → Decoded (MessageWrapper W)
  UnmarshalChat : W → Decoded ChatMessage
  UnmarshalTyping : W → Decoded TypingMessage
  UnmarshalStrings : W → Decoded (List String)
  MarshalChat : ChatMessage → Decoded W
  MarshalTyping : TypingMessage → Decoded W
  MarshalStrings : List String → Decoded W

/-! ## Client: data model (`src/client/main.go`) -/

/-- Go `TypeInfo`. -/
structure TypeInfo where
  Index : Int
  Color : Int
  From : String
deriving DecidableEq, Repr

/-- Go `tea.KeyType`, an `int`. -/
abbrev KeyType := Int

/-- Library constant `tea.KeyEnter` (carriage return). -/
def KeyEnter : KeyType := 13
/-- Library constant `tea.KeyCtrlC` (end of text). -/
def KeyCtrlC : KeyType := 3
/-- Library constant `tea.KeyEsc`. -/
def KeyEsc : KeyType := 27
/-- Library constant `tea.KeyRunes`, an ordinary character. -/
def KeyRunes : KeyType := -1
/-- Library constant `tea.KeyUp`. -/
def KeyUp : KeyType := -2
/-- Library constant `tea.KeyDown`. -/
def KeyDown : KeyType := -3
/-- Library constant `tea.KeyPgUp`. -/
def KeyPgUp : KeyType := -9
/-- Library constant `tea.KeyPgDown`. -/
def KeyPgDown : KeyType := -10
/-- Library constant `tea.MouseButtonWheelDown`, converted by `tea.KeyType(...)`. -/
def MouseButtonWheelDown : KeyType := 5

/-- Go interface `Message` with its three implementations. -/
inductive Message where
  | Chat (cm : ChatMessage)
  | Typing (t : TypingMessage)
  | Friends (friendList : List String)
deriving DecidableEq, Repr

/-- The `tea.Msg` values `Update` distinguishes.  `MessageRecvMsg none` is a
`MessageRecvMsg` whose `message` interface is nil; `Other` is any other message. -/
inductive Msg where
  | WindowSizeMsg (Width Height : Int)
  | KeyMsg (Typ : KeyType) (Runes : List Char)
  | TickMsg
  | ErrorMsg (err : String)
  | DoneMsg
  | ConnMsg
  | MessageSentMsg
  | MessageRecvMsg (message : Option Message)
  | Other (tag : Nat)
deriving DecidableEq, Repr

/-- The commands `Update` can return.  `Widget` is a command produced by a library
widget. -/
inductive Cmd where
  | Connect (whoAmI : String)
  | FinalWords
  | SendText (whoAmI : String) (friend : String) (text : String) (color : Int)
  | ShortLiveRecv
  | RecvMessage
  | TypingObserver (ctx : Nat) (toUser : String) (color : Int) (frm : String)
  | Quit
  | Widget (id : Nat)
deriving DecidableEq, Repr

/-- Go `Model`, without the layout state of the widgets.  `FriendItems` is the item
list of `List`, `Input` and `TextArea` are the values of the two input widgets,
`PointsSpinner` is the current `View()` of the ellipsis spinner, `Conn` tells whether
the connection pointer is set, `TypingCtx` names the current typing context (the
pair `TypingCtx`, `TypingCancelFunc`). -/
structure Model where
  FriendItems : List String
  Friend : String
  ExitMessage : String
  Input : String
  WhoAmI : String
  Conn : Bool
  CurrWindow : Int
  TextArea : String
  Messages : List String
  Theme : Int
  TypingCtx : Nat
  PointsSpinner : String
  EventTracking : List (String × TypeInfo)
deriving DecidableEq, Repr

/-- What the libraries and the clock answer while one message is handled. -/
structure Env where
  TimeStamp : String
  Render : Int → String → String
  SpinnerView : String → String
  SpinnerCmd : List Nat
  InputUpdate : String → Msg → String
  TextAreaUpdate : String → Msg → String
  SelectedItem : List String → Option String
  ListCmd : Msg → List Nat
  TextAreaCmd : Msg → List Nat
  ViewPortCmd : Msg → List Nat

/-- Result of one call of `Update`: the model, the command, and the contexts whose
cancel function was called during the call. -/
structure Step where
  model : Model
  cmd : List Cmd
  cancelled : List Nat
deriving DecidableEq, Repr

/-- Go `InitialModel`; the random theme colour is the argument. -/
def InitialModel (color : Int) : Model :=
  { FriendItems := [], Friend := "", ExitMessage := "", Input := "", WhoAmI := "",
    Conn := false, CurrWindow := 0, TextArea := "", Messages := [], Theme := color,
    TypingCtx := 0, PointsSpinner := "", EventTracking := [] }

/-- Go `fmt.Sprintf("%s %s: %s", ts, who, text)`. -/
def formatLine (ts who text : String) : String :=
  ts ++ " " ++ who ++ ": " ++ text

/-- Go `BlackListTypingKeys`. -/
def BlackListTypingKeys : List KeyType :=
  [KeyEnter, KeyCtrlC, MouseButtonWheelDown, MouseButtonWheelDown]

/-- Map lookup `m.EventTracking[k]`. -/
def mapGet (k : String) : List (String × TypeInfo) → Option TypeInfo
  | [] => none
  | (k', v) :: rest => if k' = k then some v else mapGet k rest

/-- Map deletion `delete(m.EventTracking, k)`. -/
def mapDelete (k : String) (es : List (String × TypeInfo)) : List (String × TypeInfo) :=
  es.filter (fun p => decide (p.1 ≠ k))

/-- The loop under `//reset indexes`: every remaining entry whose index is at or
after the removed one is decremented. -/
def resetIndexes (removed : Int) (es : List (String × TypeInfo)) :
    List (String × TypeInfo) :=
  es.map (fun p => if p.2.Index ≥ removed then (p.1, { p.2 with Index := p.2.Index - 1 }) else p)

/-- Go `slices.Delete(s, i, j)`: panics unless `0 ≤ i ≤ j ≤ len(s)`. -/
def slicesDelete (s : List String) (i j : Int) : Option (List String) :=
  if 0 ≤ i ∧ i ≤ j ∧ j ≤ (s.length : Int) then some (s.take i.toNat ++ s.drop j.toNat)
  else none

/-- The loop of the `spinner.TickMsg` case: every tracked placeholder line is
rendered again in place; an index outside the slice panics. -/
def tickLoop (e : Env) (view : String) :
    List (String × TypeInfo) → List String → Option (List String)
  | [], msgs => some msgs
  | (_, typing) :: rest, msgs =>
    if 0 ≤ typing.Index ∧ typing.Index < (msgs.length : Int) then
      tickLoop e view rest
        (msgs.set typing.Index.toNat
          (e.Render typing.Color (formatLine e.TimeStamp typing.From view)))
    else none

/-- The end of `Update`, reached by every message no case returned for: the four
widgets are updated and the commands of the list, the text area and the viewport are
batched (the command of `Input` is overwritten by that of `List`). -/
def widgetTail (e : Env) (m : Model) (msg : Msg) : Step :=
  { model := { m with Input := e.InputUpdate m.Input msg,
                      TextArea := e.TextAreaUpdate m.TextArea msg },
    cmd := (e.ListCmd msg ++ e.TextAreaCmd msg ++ e.ViewPortCmd msg).map Cmd.Widget,
    cancelled := [] }

/-- The `TypingMessage` case of `Update`. -/
def updateTyping (e : Env) (m : Model) (event : TypingMessage) : Option Step :=
  if event.IsTyping then
    match mapGet event.From m.EventTracking with
    | none =>
      some { model := { m with
                EventTracking := m.EventTracking ++
                  [(event.From, { Index := (m.Messages.length : Int), Color := event.Color,
                                  From := event.From })],
                Messages := m.Messages ++
                  [formatLine e.TimeStamp event.From m.PointsSpinner] },
             cmd := [Cmd.ShortLiveRecv], cancelled := [] }
    | some _ => some { model := m, cmd := [Cmd.ShortLiveRecv], cancelled := [] }
  else
    match mapGet event.From m.EventTracking with
    | some typing =>
      match slicesDelete m.Messages typing.Index (typing.Index + 1) with
      | none => none
      | some msgs =>
        some { model := { m with
                  Messages := msgs,
                  EventTracking :=
                    resetIndexes typing.Index (mapDelete event.From m.EventTracking) },
               cmd := [Cmd.ShortLiveRecv], cancelled := [] }
    | none => some { model := m, cmd := [Cmd.ShortLiveRecv], cancelled := [] }

/-- The `tea.KeyMsg` case of `Update`. -/
def updateKey (e : Env) (m : Model) (t : KeyType) (runes : List Char) : Step :=
  let msg := Msg.KeyMsg t runes
  if m.CurrWindow = 3 ∧ t ∉ BlackListTypingKeys then
    { model := { m with TextArea := e.TextAreaUpdate m.TextArea msg,
                        TypingCtx := m.TypingCtx + 1 },
      cmd := Cmd.TypingObserver (m.TypingCtx + 1) m.Friend m.Theme m.WhoAmI ::
               (e.TextAreaCmd msg ++ e.ViewPortCmd msg).map Cmd.Widget,
      cancelled := [m.TypingCtx] }
  else if t = KeyCtrlC ∨ t = KeyEsc then
    { model := { m with ExitMessage := e.Render 46 "Goodbye!!!" },
      cmd := [Cmd.FinalWords], cancelled := [] }
  else if t = KeyUp ∨ t = KeyPgUp then widgetTail e m msg
  else if t = KeyDown ∨ t = KeyPgDown then widgetTail e m msg
  else if t = KeyEnter then
    if m.CurrWindow = 0 then
      { model := { m with WhoAmI := m.Input, CurrWindow := 1 },
        cmd := [Cmd.Connect m.Input], cancelled := [] }
    else if m.CurrWindow = 2 then
      match e.SelectedItem m.FriendItems with
      | some friend =>
        { model := { m with Friend := friend, CurrWindow := 3, TextArea := "" },
          cmd := [], cancelled := [] }
      | none => { model := m, cmd := [], cancelled := [] }
    else if m.CurrWindow = 3 then
      if m.TextArea ≠ "" then
        { model := m, cmd := [Cmd.SendText m.WhoAmI m.Friend m.TextArea m.Theme],
          cancelled := [] }
      else widgetTail e m msg
    else widgetTail e m msg
  else widgetTail e m msg

/-- Go `Model.Update`. -/
def Update (e : Env) (m : Model) (msg : Msg) : Option Step :=
  match msg with
  | .WindowSizeMsg _ _ => some { model := m, cmd := [], cancelled := [] }
  | .KeyMsg t runes => some (updateKey e m t runes)
  | .TickMsg =>
    let view := e.SpinnerView m.PointsSpinner
    match tickLoop e view m.EventTracking m.Messages with
    | none => none
    | some msgs =>
      some { model := { m with PointsSpinner := view, Messages := msgs },
             cmd := e.SpinnerCmd.map Cmd.Widget, cancelled := [] }
  | .ErrorMsg err =>
    some { model := { m with ExitMessage := e.Render 196 err },
           cmd := [Cmd.FinalWords], cancelled := [] }
  | .DoneMsg => some { model := m, cmd := [Cmd.Quit], cancelled := [] }
  | .ConnMsg =>
    some { model := { m with CurrWindow := 2, Conn := true },
           cmd := [Cmd.RecvMessage, Cmd.ShortLiveRecv], cancelled := [] }
  | .MessageSentMsg =>
    some { model := { m with
              Messages := m.Messages ++
                [e.Render m.Theme (formatLine e.TimeStamp "You" m.TextArea)],
              TextArea := "" },
           cmd := [], cancelled := [] }
  | .MessageRecvMsg (some (.Chat event)) =>
    some { model := { m with
              Messages := m.Messages ++
                [e.Render event.Color (formatLine e.TimeStamp event.From event.Text)] },
           cmd := [Cmd.ShortLiveRecv], cancelled := [] }
  | .MessageRecvMsg (some (.Friends event)) =>
    some { model := { m with FriendItems := event },
           cmd := [Cmd.ShortLiveRecv], cancelled := [] }
  | .MessageRecvMsg (some (.Typing event)) => updateTyping e m event
  | .MessageRecvMsg none => some (widgetTail e m msg)
  | .Other _ => some (widgetTail e m msg)

/-- Handling a sequence of messages, each with the library answers of its turn. -/
def runUpdates (m : Model) : List (Env × Msg) → Option Model
  | [] => some m
  | (e, msg) :: rest =>
    match Update e m msg with
    | none => none
    | some s => runUpdates s.model rest

/-! ## Client: writers and readers of the connection -/

/-- The connection as the writers of the client see it: `failures` holds, for each
coming call of `WriteJSON`, the error it returns (`none` is a nil error; once the list
is used up every call succeeds), `log` the calls made so far with their errors. -/
structure Conn (W : Type) where
  failures : List (Option String)
  log : List (MessageWrapper W × Option String)

/-- Go `SyncSend`: one `WriteJSON` under the mutex; the result is the error. -/
def SyncSend {W : Type} (conn : Conn W) (messageWrapper : MessageWrapper W) :
    Conn W × Option String :=
  match conn.failures with
  | [] => ({ conn with log := conn.log ++ [(messageWrapper, none)] }, none)
  | err :: rest => ({ failures := rest, log := conn.log ++ [(messageWrapper, err)] }, err)

/-- Go `JsonTyping`: a marshalling error is printed and the wrapper is built all the
same. -/
def JsonTyping {W : Type} (c : Codec W) (isTyping : Bool) (toUser : String) (color : Int)
    (frm : String) : MessageWrapper W :=
  { Typ := "typing",
    Value := (c.MarshalTyping { IsTyping := isTyping, To := toUser, Color := color,
                                From := frm }).val }

/-- The `messageWrapper` built in Go `SendText`: type chat, value the marshalled
`ChatMessage` with `To` the friend and `From` the sender. -/
def chatWrapper {W : Type} (c : Codec W) (whoAmI : String) (friend : String)
    (text : String) (color : Int) : MessageWrapper W :=
  { Typ := "chat",
    Value := (c.MarshalChat { To := friend, From := whoAmI, Text := text,
                              Color := color }).val }

/-- The command returned by Go `SendText`, run on a connection: the connection
afterwards and the message the command reports. -/
def SendText {W : Type} (c : Codec W) (conn : Conn W) (whoAmI : String) (friend : String)
    (text : String) (color : Int) : Conn W × Msg :=
  if (c.MarshalChat { To := friend, From := whoAmI, Text := text, Color := color }).err
  then (conn, Msg.ErrorMsg "json: marshal error")
  else
    match SyncSend conn (chatWrapper c whoAmI friend text color) with
    | (conn1, some err) => (conn1, Msg.ErrorMsg err)
    | (conn1, none) =>
      ((SyncSend conn1 (JsonTyping c false friend color whoAmI)).1, Msg.MessageSentMsg)

/-- What `conn.ReadMessage()` returns: a frame, a normal-closure error, or any
other error. -/
inductive ReadResult (W : Type) where
  | frame (data : W)
  | closeNormal
  | failure (err : String)

/-- One turn of the loop of Go `RecvMessage`: either the command returns a message
(`returned`; nil after a normal closure), or the goroutine started for the frame
pushes one `MessageRecvMsg` into `recvChan` (`pushed`) and the loop goes on. -/
inductive RecvTurn where
  | returned (msg : Option Msg)
  | pushed (message : Option Message)
deriving DecidableEq, Repr

/-- The type switch of the goroutine of `RecvMessage`: a payload error is printed
and the value decoded so far is used; an unknown type leaves `message` nil. -/
def recvDispatch {W : Type} (c : Codec W) (msg : MessageWrapper W) : Option Message :=
  if msg.Typ = "chat" then some (Message.Chat (c.UnmarshalChat msg.Value).val)
  else if msg.Typ = "typing" then some (Message.Typing (c.UnmarshalTyping msg.Value).val)
  else if msg.Typ = "friends" then some (Message.Friends (c.UnmarshalStrings msg.Value).val)
  else none

/-- One turn of the loop of Go `RecvMessage`. -/
def RecvMessage {W : Type} (c : Codec W) : ReadResult W → RecvTurn
  | .closeNormal => RecvTurn.returned none
  | .failure err => RecvTurn.returned (some (Msg.ErrorMsg err))
  | .frame incoming =>
    let msg := c.UnmarshalWrapper incoming
    if msg.err then RecvTurn.returned (some (Msg.ErrorMsg "json: unmarshal error"))
    else RecvTurn.pushed (recvDispatch c msg.val)

/-- The hand-off channel `recvChan` is unbuffered and is received from only by the
command `ShortLiveRecv`.  `drainEvents e m armed evs` hands the pushed events `evs` to
`Update` for as long as a `ShortLiveRecv` command is outstanding (`armed`); it returns
the model reached and the events never received. -/
def drainEvents (e : Env) (m : Model) (armed : Bool) :
    List (Option Message) → Option (Model × List (Option Message))
  | [] => some (m, [])
  | ev :: rest =>
    if armed then
      match Update e m (Msg.MessageRecvMsg ev) with
      | none => none
      | some s => drainEvents e s.model (decide (Cmd.ShortLiveRecv ∈ s.cmd)) rest
    else some (m, ev :: rest)

/-! ## Client: the typing heartbeat in time

Times are in milliseconds.  A `TypingObserver` command writes `typing:true`, starts
its timer and then waits in `select` for the timer or for its context. -/

/-- The delay of `time.NewTimer(time.Second * 3)`. -/
def quietWindow : Nat := 3000

/-- A `TypingObserver` goroutine waiting in its `select`: its context, the time at
which `delay.C` fires, and the arguments it was started with. -/
structure Heartbeat where
  ctx : Nat
  deadline : Nat
  toUser : String
  color : Int
  frm : String
deriving DecidableEq, Repr

/-- The client with its running heartbeats. -/
structure Session (W : Type) where
  model : Model
  conn : Conn W
  waiting : List Heartbeat

/-- First half of Go `TypingObserver`, run when its timer starts at time `start`:
`typing:true` is written (an error is dropped) and the goroutine waits. -/
def TypingObserverStart {W : Type} (c : Codec W) (start : Nat) (s : Session W) (ctx : Nat)
    (toUser : String) (color : Int) (frm : String) : Session W :=
  { s with
    conn := (SyncSend s.conn (JsonTyping c true toUser color frm)).1,
    waiting := s.waiting ++
      [{ ctx := ctx, deadline := start + quietWindow, toUser := toUser, color := color,
         frm := frm }] }

/-- The case `<- delay.C` of `TypingObserver`: `typing:false` is written. -/
def TypingObserverTimer {W : Type} (c : Codec W) (conn : Conn W) (h : Heartbeat) : Conn W :=
  (SyncSend conn (JsonTyping c false h.toUser h.color h.frm)).1

/-- Every waiting heartbeat whose timer has fired by time `now` takes the timer
case and ends.  (A timer that fires at the very time of a key press counts as fired
before the key press is handled.) -/
def fireTimers {W : Type} (c : Codec W) (now : Nat) (s : Session W) : Session W :=
  { s with
    conn := (s.waiting.filter (fun h => decide (h.deadline ≤ now))).foldl
              (TypingObserverTimer c) s.conn,
    waiting := s.waiting.filter (fun h => decide (¬ h.deadline ≤ now)) }

/-- The commands of a batch are started; only `TypingObserver` commands act on the
heartbeat state. -/
def startCmds {W : Type} (c : Codec W) (start : Nat) (s : Session W) : List Cmd → Session W
  | [] => s
  | Cmd.TypingObserver ctx toUser color frm :: rest =>
    startCmds c start (TypingObserverStart c start s ctx toUser color frm) rest
  | _ :: rest => startCmds c start s rest

/-- A key press handled by `Update` at time `time`; the command it returns has
started its timer `delay` later. -/
structure KeyEvent where
  time : Nat
  delay : Nat
  env : Env
  Typ : KeyType
  Runes : List Char

/-- One key press: the timers that have fired by then take their case; `Update`
runs; a waiting heartbeat whose context `Update` cancelled takes the case
`<- ctx.Done()` and ends without writing; the returned commands start. -/
def keystroke {W : Type} (c : Codec W) (s : Session W) (k : KeyEvent) : Session W :=
  let s1 := fireTimers c k.time s
  let step := updateKey k.env s1.model k.Typ k.Runes
  startCmds c (k.time + k.delay) 
    { model := step.model, conn := s1.conn,
      waiting := s1.waiting.filter (fun h => decide (h.ctx ∉ step.cancelled)) }
    step.cmd

/-- A sequence of key presses. -/
def keystrokes {W : Type} (c : Codec W) (s : Session W) (ks : List KeyEvent) : Session W :=
  ks.foldl (keystroke c) s

/-- No further message arrives: every waiting heartbeat runs out its timer. -/
def settle {W : Type} (c : Codec W) (s : Session W) : Session W :=
  { s with conn := s.waiting.foldl (TypingObserverTimer c) s.conn, waiting := [] }

/-- A logged write is a typing envelope that its receiver decodes with the given
`isTyping`. -/
def isTypingWrite {W : Type} (c : Codec W) (isTyping : Bool)
    (w : MessageWrapper W × Option String) : Bool :=
  w.1.Typ == "typing" && (c.UnmarshalTyping w.1.Value).val.IsTyping == isTyping

/-- Number of typing envelopes with the given `isTyping` among the logged writes. -/
def countTyping {W : Type} (c : Codec W) (isTyping : Bool) (conn : Conn W) : Nat :=
  conn.log.countP (isTypingWrite c isTyping)

/-- A burst: every key press comes no earlier than the one before it and less than
the quiet window after it. -/
def IsBurst (ks : List KeyEvent) : Prop :=
  ks.Chain' (fun a b => a.time ≤ b.time ∧ b.time < a.time + quietWindow)

/-! ## Server (`src/server/main.go`) -/

/-- One turn of the inbound loop of `WsServer.Chat`: the calls of `Redis.Publish`
made (channel, payload) and whether the loop goes on.  A decoding error is printed and
the turn goes on with what was decoded; a publish error is printed and `break` leaves
the `switch`. -/
def inboundTurn {W : Type} (c : Codec W) : ReadResult W → List (String × W) × Bool
  | .closeNormal => ([], false)
  | .failure _ => ([], false)
  | .frame msg =>
    let messageWraper := (c.UnmarshalWrapper msg).val
    if messageWraper.Typ = "chat" then
      ([((c.UnmarshalChat messageWraper.Value).val.To, msg)], true)
    else if messageWraper.Typ = "typing" then
      ([((c.UnmarshalTyping messageWraper.Value).val.To, msg)], true)
    else ([], true)

/-- The inbound loop over the results of successive reads: all calls of
`Redis.Publish` made until the loop returns. -/
def inboundLoop {W : Type} (c : Codec W) : List (ReadResult W) → List (String × W)
  | [] => []
  | r :: rest =>
    if (inboundTurn c r).2 then (inboundTurn c r).1 ++ inboundLoop c rest
    else (inboundTurn c r).1

/-- Go `WsServer.AllActiveUsers`; the argument is the result of `SMembers` (`none`
is an error). -/
def AllActiveUsers (smembers : Option (List String)) : Option (List String) :=
  match smembers with
  | none => none
  | some active => some (active.foldl (fun online user => online ++ [user]) [])

/-- The payload published on channel `"all"` when `id` joins: the members listed
(nil after an error) with `id` appended, marshalled. -/
def joinSnapshot {W : Type} (c : Codec W) (smembers : Option (List String)) (id : String) :
    W :=
  (c.MarshalStrings ((AllActiveUsers smembers).getD [] ++ [id])).val

/-- The relay of channel `"all"` in the session of `id`: the wrapper written to the
client for one payload. -/
def presenceRelay {W : Type} (c : Codec W) (id : String) (payload : W) : MessageWrapper W :=
  let active := (c.UnmarshalStrings payload).val
  let active := active.filter (fun ele => !decide (id = ele))
  { Typ := "friends", Value := (c.MarshalStrings active).val }

/-- The friends list the client of `r` decodes from what the relay of `r` writes
when `id` joins. -/
def friendsSent {W : Type} (c : Codec W) (smembers : Option (List String)) (id r : String) :
    List String :=
  (c.UnmarshalStrings (presenceRelay c r (joinSnapshot c smembers id)).Value).val

/-! ## A codec on parsed documents

`jsonCodec` follows `encoding/json` on documents that are already parsed: a field of
the wrong JSON type is reported as an error while the other fields are still stored,
and a document of the wrong shape is an error that stores nothing.  It serves the
concrete instances below; the general statements hold for every codec. -/

/-- A parsed JSON document. -/
inductive Json where
  | null
  | str (s : String)
  | num (n : Int)
  | bool (b : Bool)
  | arr (items : List Json)
  | obj (fields : List (String × Json))

/-- Storing the fields of an object into a `ChatMessage`. -/
def chatFields : List (String × Json) → Decoded ChatMessage → Decoded ChatMessage
  | [], d => d
  | (k, v) :: rest, d =>
    chatFields rest
      (match k, v with
       | "to", Json.str s => { d with val := { d.val with To := s } }
       | "from", Json.str s => { d with val := { d.val with From := s } }
       | "text", Json.str s => { d with val := { d.val with Text := s } }
       | "color", Json.num n => { d with val := { d.val with Color := n } }
       | "to", _ => { d with err := true }
       | "from", _ => { d with err := true }
       | "text", _ => { d with err := true }
       | "color", _ => { d with err := true }
       | _, _ => d)

/-- Storing the fields of an object into a `TypingMessage`. -/
def typingFields : List (String × Json) → Decoded TypingMessage → Decoded TypingMessage
  | [], d => d
  | (k, v) :: rest, d =>
    typingFields rest
      (match k, v with
       | "isTyping", Json.bool b => { d with val := { d.val with IsTyping := b } }
       | "to", Json.str s => { d with val := { d.val with To := s } }
       | "color", Json.num n => { d with val := { d.val with Color := n } }
       | "from", Json.str s => { d with val := { d.val with From := s } }
       | "isTyping", _ => { d with err := true }
       | "to", _ => { d with err := true }
       | "color", _ => { d with err := true }
       | "from", _ => { d with err := true }
       | _, _ => d)

/-- Storing the fields of an object into a `MessageWrapper`. -/
def wrapperFields :
    List (String × Json) → Decoded (MessageWrapper Json) → Decoded (MessageWrapper Json)
  | [], d => d
  | (k, v) :: rest, d =>
    wrapperFields rest
      (match k, v with
       | "type", Json.str s => { d with val := { d.val with Typ := s } }
       | "type", _ => { d with err := true }
       | "value", j => { d with val := { d.val with Value := j } }
       | _, _ => d)

/-- Storing the items of an array into a slice of strings. -/
def stringItems : List Json → Decoded (List String)
  | [] => { val := [], err := false }
  | Json.str s :: rest => { stringItems rest with val := s :: (stringItems rest).val }
  | _ :: rest => { val := "" :: (stringItems rest).val, err := true }

/-- The codec on parsed documents. -/
def jsonCodec : Codec Json where
  UnmarshalWrapper
    | Json.obj fields => wrapperFields fields { val := { Typ := "", Value := Json.null }, err := false }
    | _ => { val := { Typ := "", Value := Json.null }, err := true }
  UnmarshalChat
    | Json.obj fields =>
      chatFields fields { val := { To := "", From := "", Text := "", Color := 0 }, err := false }
    | _ => { val := { To := "", From := "", Text := "", Color := 0 }, err := true }
  UnmarshalTyping
    | Json.obj fields =>
      typingFields fields
        { val := { IsTyping := false, To := "", Color := 0, From := "" }, err := false }
    | _ => { val := { IsTyping := false, To := "", Color := 0, From := "" }, err := true }
  UnmarshalStrings
    | Json.arr items => stringItems items
    | _ => { val := [], err := true }
  MarshalChat m :=
    { val := Json.obj [("to", Json.str m.To), ("from", Json.str m.From),
                       ("text", Json.str m.Text), ("color", Json.num m.Color)],
      err := false }
  MarshalTyping m :=
    { val := Json.obj [("isTyping", Json.bool m.IsTyping), ("to", Json.str m.To),
                       ("color", Json.num m.Color), ("from", Json.str m.From)],
      err := false }
  MarshalStrings l := { val := Json.arr (l.map Json.str), err := false }

/-- The frame with type chat and value an object with to bob and a number as text:
a chat payload that does not decode. -/
def badChatFrame : Json :=
  Json.obj [("type", Json.str "chat"),
            ("value", Json.obj [("to", Json.str "bob"), ("text", Json.num 5)])]

/-- A well-formed chat frame from alice to bob. -/
def goodChatFrame : Json :=
  Json.obj [("type", Json.str "chat"),
            ("value", Json.obj [("to", Json.str "bob"), ("from", Json.str "alice"),
                                ("text", Json.str "hi"), ("color", Json.num 7)])]

/-- A frame whose type is none of chat, typing, friends. -/
def pingFrame : Json :=
  Json.obj [("type", Json.str "ping"), ("value", Json.null)]

/-- A frame that is not an object: the envelope does not decode. -/
def brokenFrame : Json := Json.num 5

/-- A client in the conversation view: alice talking to bob. -/
def conversationModel : Model :=
  { InitialModel 5 with WhoAmI := "alice", Friend := "bob", CurrWindow := 3, Conn := true,
                        FriendItems := ["bob"], TextArea := "hi", TypingCtx := 4 }

/-- A client showing two placeholders: bob at line 1 and carol at line 3. -/
def trackedModel : Model :=
  { conversationModel with
    Messages := ["[9:1] bob: hello", "[9:2] bob: ", "[9:3] You: hi", "[9:4] carol: "],
    EventTracking := [("bob", { Index := 1, Color := 3, From := "bob" }),
                      ("carol", { Index := 3, Color := 4, From := "carol" })] }

/-- Library answers used in the concrete instances: the style renderer leaves the
text as it is, the widgets keep their values and return no command. -/
def plainEnv : Env :=
  { TimeStamp := "[9:5]", Render := fun _ s => s, SpinnerView := fun v => v ++ ".",
    SpinnerCmd := [], InputUpdate := fun v _ => v, TextAreaUpdate := fun v _ => v,
    SelectedItem := fun items => items.head?, ListCmd := fun _ => [],
    TextAreaCmd := fun _ => [], ViewPortCmd := fun _ => [] }

/-! ## Client: the slot invariant -/

/-- The slot condition on a map of placeholders for a transcript of `n` lines: the
keys are distinct (it is a map), every index lies in `0 .. n-1`, and no two entries
hold the same index. -/
def SlotsOk (n : Nat) (es : List (String × TypeInfo)) : Prop :=
  (es.map Prod.fst).Nodup ∧
  (∀ p ∈ es, 0 ≤ p.2.Index ∧ p.2.Index < (n : Int)) ∧
  (es.map (fun p => p.2.Index)).Nodup

instance (n : Nat) (es : List (String × TypeInfo)) : Decidable (SlotsOk n es) := by
  unfold SlotsOk; infer_instance

/-- The typing slot invariant of a client state. -/
def SlotInv (m : Model) : Prop := SlotsOk m.Messages.length m.EventTracking

instance (m : Model) : Decidable (SlotInv m) := by
  unfold SlotInv; infer_instance


/-- The conversation of alice with bob with no heartbeat running and nothing
written yet. -/
def quietSession : Session Json :=
  { model := conversationModel, conn := { failures := [], log := [] }, waiting := [] }

/-- An ordinary character typed at time `time`, its command starting `delay` later. -/
def runeKey (time delay : Nat) (r : Char) : KeyEvent :=
  { time := time, delay := delay, env := plainEnv, Typ := KeyRunes, Runes := [r] }

/-- Three characters typed one second apart. -/
def threeKeys : List KeyEvent := [runeKey 0 2 'a', runeKey 1000 0 'b', runeKey 2000 5 'c']

/-! ## Server: one session of the gateway

`WsServer.Chat` from the upgrade on.  With a connection, the handler ranges over the
channel of the subscription of `id`; the goroutine it starts reads frames and, when a
read fails, returns through its deferred `allSub.Close()` and `sub.Close()`.  Closing
a subscription closes its channel, which ends the `range` loop of the handler.  The
handler then calls `SRem` and returns; its deferred `conn.Close()` makes every later
read fail.  `SRem` is an ordinary statement after the loop, not a deferred one: it
runs only when the handler gets there.

When `upgrader.Upgrade` fails the error is printed and the handler goes on with a nil
`conn`: it publishes the snapshot, adds `id` to the registry, and the first call on
`conn` (the read of the inbound goroutine) panics. -/

/-- Redis `SADD` on the members of `active:channels`. -/
def SAdd (members : List String) (id : String) : List String :=
  if id ∈ members then members else members ++ [id]

/-- Redis `SREM` on the members of `active:channels`. -/
def SRem (members : List String) (id : String) : List String :=
  members.filter (fun x => decide (x ≠ id))

/-- Which calls to the store return an error; such a call changes nothing and the
error is printed. -/
structure StoreErrors where
  SMembers : Bool
  SAdd : Bool
  SRem : Bool
deriving DecidableEq, Repr

/-- What can happen to a running session: `conn.ReadMessage()` returns in the
inbound goroutine; a message arrives on the channel of `id` and `conn.WriteMessage`
returns (with an error or not); a payload arrives on channel `"all"` and
`conn.WriteJSON` returns. -/
inductive GatewayEvent (W : Type) where
  | read (r : ReadResult W)
  | incoming (payload : W) (writeFails : Bool)
  | presence (payload : W) (writeFails : Bool)

/-- A session of `WsServer.Chat`: the members of `active:channels`, whether the
inbound goroutine is still in its loop (the subscriptions are open exactly until it
returns), whether the handler has returned, whether the session ended in a panic, and
what was published and written. -/
structure Gateway (W : Type) where
  registry : List String
  reading : Bool
  returned : Bool
  panicked : Bool
  published : List (String × W)
  written : List W
  friends : List (MessageWrapper W)

/-- The end of the handler, after its `range` loop: `SRem` (an error is printed and
leaves the registry as it is), then the return with the deferred `conn.Close()`. -/
def handlerEnd {W : Type} (id : String) (sremFails : Bool) (g : Gateway W) : Gateway W :=
  { g with registry := if sremFails then g.registry else SRem g.registry id,
           returned := true }

/-- One event of a session that has a connection. -/
def gatewayStep {W : Type} (c : Codec W) (id : String) (sremFails : Bool) (g : Gateway W) :
    GatewayEvent W → Gateway W
  | .read r =>
    if g.reading then
      if (inboundTurn c (if g.returned then ReadResult.failure "use of closed connection"
                         else r)).2 then
        { g with published := g.published ++
            (inboundTurn c (if g.returned then ReadResult.failure "use of closed connection"
                            else r)).1 }
      else if g.returned then { g with reading := false }
      else handlerEnd id sremFails { g with reading := false }
    else g
  | .incoming payload writeFails =>
    if g.returned then g
    else if writeFails then handlerEnd id sremFails g
    else { g with written := g.written ++ [payload] }
  | .presence payload writeFails =>
    if g.reading ∧ writeFails = false then
      { g with friends := g.friends ++ [presenceRelay c id payload] }
    else g

/-- The registry once the handler has passed its `SAdd`. -/
def registered (errs : StoreErrors) (registry : List String) (id : String) : List String :=
  if errs.SAdd then registry else SAdd registry id

/-- Go `WsServer.Chat`.  An empty `id` or a failed subscription to `"all"` returns at
once.  Otherwise the snapshot is published on `"all"` and `id` is added to the
registry; then, with a connection, the two loops run over the events, and after a
failed upgrade (`conn` is nil) the first read panics: the session ends without
`SRem`. -/
def Chat {W : Type} (c : Codec W) (id : String) (upgradeFails subscribeFails : Bool)
    (errs : StoreErrors) (registry : List String) (events : List (GatewayEvent W)) :
    Gateway W :=
  if id = "" ∨ subscribeFails = true then
    { registry := registry, reading := false, returned := true, panicked := false,
      published := [], written := [], friends := [] }
  else if upgradeFails then
    { registry := registered errs registry id,
      reading := false, returned := false, panicked := true,
      published :=
        [("all", joinSnapshot c (if errs.SMembers then none else some registry) id)],
      written := [], friends := [] }
  else
    events.foldl (gatewayStep c id errs.SRem)
      { registry := registered errs registry id,
        reading := true, returned := false, panicked := false,
        published :=
          [("all", joinSnapshot c (if errs.SMembers then none else some registry) id)],
        written := [], friends := [] }

/-- The three ways the loops of a session end: the inbound read fails with a normal
closure, it fails with another error, or a write of the outbound loop fails. -/
def endsSession {W : Type} : GatewayEvent W → Bool
  | .read .closeNormal => true
  | .read (.failure _) => true
  | .incoming _ true => true
  | _ => false

/-- The registry a session leaves when its handler returns after the loops: the
registry it registered in, without `id` when the store executes `SRem`. -/
def deregistered (errs : StoreErrors) (registry : List String) (id : String) : List String :=
  if errs.SRem then registered errs registry id else SRem (registered errs registry id) id

/-! ## Lemmas on the map operations -/

theorem mapGet_eq_none_iff (k : String) (es : List (String × TypeInfo)) :
    mapGet k es = none ↔ k ∉ es.map Prod.fst := by
  induction es with
  | nil => simp [mapGet]
  | cons p rest ih =>
    obtain ⟨k', v⟩ := p
    by_cases h : k' = k
    · simp [mapGet, h]
    · simp only [mapGet, if_neg h, ih, List.map_cons, List.mem_cons, not_or]
      constructor
      · intro hk; exact ⟨fun hk' => h hk'.symm, hk⟩
      · intro hk; exact hk.2

theorem mapGet_mem {k : String} {es : List (String × TypeInfo)} {v : TypeInfo}
    (h : mapGet k es = some v) : (k, v) ∈ es := by
  induction es with
  | nil => simp [mapGet] at h
  | cons p rest ih =>
    obtain ⟨k', v'⟩ := p
    by_cases hk : k' = k
    · simp only [mapGet, if_pos hk, Option.some.injEq] at h
      subst hk; subst h; exact List.mem_cons_self _ _
    · simp only [mapGet, if_neg hk] at h
      exact List.mem_cons_of_mem _ (ih h)

theorem resetIndexes_keys (r : Int) (es : List (String × TypeInfo)) :
    (resetIndexes r es).map Prod.fst = es.map Prod.fst := by
  unfold resetIndexes
  rw [List.map_map]
  apply List.map_congr_left
  intro p _
  simp only [Function.comp]
  split <;> rfl

theorem tickLoop_ok (e : Env) (view : String) :
    ∀ (es : List (String × TypeInfo)) (msgs : List String),
      (∀ p ∈ es, 0 ≤ p.2.Index ∧ p.2.Index < (msgs.length : Int)) →
      ∃ out, tickLoop e view es msgs = some out ∧ out.length = msgs.length := by
  intro es
  induction es with
  | nil => intro msgs _; exact ⟨msgs, rfl, rfl⟩
  | cons p rest ih =>
    intro msgs h
    obtain ⟨k, typing⟩ := p
    have hp := h (k, typing) (List.mem_cons_self _ _)
    simp only [tickLoop, if_pos hp]
    obtain ⟨out, ho, hl⟩ := ih (msgs.set typing.Index.toNat
        (e.Render typing.Color (formatLine e.TimeStamp typing.From view))) (by
      intro q hq
      rw [List.length_set]
      exact h q (List.mem_cons_of_mem _ hq))
    exact ⟨out, ho, by rw [hl, List.length_set]⟩

theorem SlotsOk_mono {n n' : Nat} {es : List (String × TypeInfo)} (hn : n ≤ n')
    (h : SlotsOk n es) : SlotsOk n' es := by
  refine ⟨h.1, ?_, h.2.2⟩
  intro p hp
  have := h.2.1 p hp
  exact ⟨this.1, by omega⟩

theorem SlotsOk_insert {n : Nat} {es : List (String × TypeInfo)} (k : String) (c : Int)
    (h : SlotsOk n es) (hk : mapGet k es = none) :
    SlotsOk (n + 1) (es ++ [(k, { Index := (n : Int), Color := c, From := k })]) := by
  obtain ⟨h1, h2, h3⟩ := h
  rw [mapGet_eq_none_iff] at hk
  refine ⟨?_, ?_, ?_⟩
  · rw [List.map_append, List.nodup_append]
    refine ⟨h1, by simp, ?_⟩
    intro a ha hb
    simp only [List.map_cons, List.map_nil, List.mem_singleton] at hb
    subst hb; exact hk ha
  · intro p hp
    rcases List.mem_append.1 hp with hp | hp
    · have := h2 p hp
      exact ⟨this.1, by push_cast; omega⟩
    · simp only [List.mem_singleton] at hp
      subst hp
      exact ⟨by simp, by push_cast; simp⟩
  · rw [List.map_append, List.nodup_append]
    refine ⟨h3, by simp, ?_⟩
    intro a ha hb
    simp only [List.map_cons, List.map_nil, List.mem_singleton] at hb
    obtain ⟨p, hp, hpa⟩ := List.mem_map.1 ha
    have := (h2 p hp).2
    rw [hpa, hb] at this
    exact lt_irrefl _ this

theorem SlotsOk_delete {n : Nat} {es : List (String × TypeInfo)} {k : String}
    {v : TypeInfo} (h : SlotsOk n es) (hk : mapGet k es = some v) :
    SlotsOk (n - 1) (resetIndexes v.Index (mapDelete k es)) := by
  obtain ⟨h1, h2, h3⟩ := h
  have hmem := mapGet_mem hk
  have hv : 0 ≤ v.Index ∧ v.Index < (n : Int) := h2 _ hmem
  have hsub : ∀ p ∈ mapDelete k es, p ∈ es ∧ p.1 ≠ k := by
    intro p hp
    simpa [mapDelete] using hp
  have hne : ∀ p ∈ mapDelete k es, p.2.Index ≠ v.Index := by
    intro p hp hidx
    obtain ⟨hpe, hpk⟩ := hsub p hp
    have := List.inj_on_of_nodup_map h3 hpe hmem hidx
    exact hpk (by rw [this])
  refine ⟨?_, ?_, ?_⟩
  · rw [resetIndexes_keys]
    exact (List.Nodup.of_map Prod.fst h1 |>.filter _).map_on (by
      intro x hx y hy hxy
      have hx' : x ∈ es := (hsub x (by simpa [mapDelete] using hx)).1
      have hy' : y ∈ es := (hsub y (by simpa [mapDelete] using hy)).1
      exact List.inj_on_of_nodup_map h1 hx' hy' hxy)
  · intro p hp
    unfold resetIndexes at hp
    obtain ⟨q, hq, hqp⟩ := List.mem_map.1 hp
    have hq1 := h2 q (hsub q hq).1
    have hq2 := hne q hq
    subst hqp
    split
    · simp only
      omega
    · omega
  · unfold resetIndexes
    rw [List.map_map]
    apply List.Nodup.map_on
    · intro x hx y hy hxy
      have hx1 := hne x hx
      have hy1 := hne y hy
      have hidx : x.2.Index = y.2.Index := by
        simp only [Function.comp] at hxy
        split at hxy <;> split at hxy <;> (try simp only at hxy) <;> omega
      exact List.inj_on_of_nodup_map h3 (hsub x hx).1 (hsub y hy).1 hidx
    · exact (List.Nodup.of_map Prod.fst h1).filter _

theorem slicesDelete_one {s : List String} {i : Int} (h0 : 0 ≤ i)
    (h1 : i < (s.length : Int)) :
    slicesDelete s i (i + 1) = some (s.eraseIdx i.toNat) := by
  unfold slicesDelete
  rw [if_pos ⟨h0, by omega, by omega⟩]
  congr 1
  have : (i + 1).toNat = i.toNat + 1 := by omega
  rw [this, List.eraseIdx_eq_take_drop_succ]

/-- One call of `Update` on a state satisfying the slot invariant returns (no
panic) a state satisfying it. -/
theorem Update_preserves_SlotInv (e : Env) (m : Model) (msg : Msg) (h : SlotInv m) :
    ∃ s, Update e m msg = some s ∧ SlotInv s.model := by
  unfold SlotInv at h
  cases msg with
  | WindowSizeMsg w hh => exact ⟨_, rfl, h⟩
  | KeyMsg t runes =>
    refine ⟨_, rfl, ?_⟩
    unfold updateKey widgetTail SlotInv
    simp only
    repeat (first | split | exact h)
  | TickMsg =>
    obtain ⟨out, ho, hl⟩ := tickLoop_ok e (e.SpinnerView m.PointsSpinner)
      m.EventTracking m.Messages h.2.1
    have hu : Update e m Msg.TickMsg =
        some { model := { m with PointsSpinner := e.SpinnerView m.PointsSpinner,
                                 Messages := out },
               cmd := e.SpinnerCmd.map Cmd.Widget, cancelled := [] } := by
      simp only [Update, ho]
    refine ⟨_, hu, ?_⟩
    simp only [SlotInv, hl]
    exact h
  | ErrorMsg err => exact ⟨_, rfl, h⟩
  | DoneMsg => exact ⟨_, rfl, h⟩
  | ConnMsg => exact ⟨_, rfl, h⟩
  | MessageSentMsg =>
    refine ⟨_, rfl, ?_⟩
    simp only [SlotInv, List.length_append, List.length_singleton]
    exact SlotsOk_mono (Nat.le_succ _) h
  | Other tag => exact ⟨_, rfl, h⟩
  | MessageRecvMsg message =>
    cases message with
    | none => exact ⟨_, rfl, h⟩
    | some ev =>
      cases ev with
      | Chat event =>
        refine ⟨_, rfl, ?_⟩
        simp only [SlotInv, List.length_append, List.length_singleton]
        exact SlotsOk_mono (Nat.le_succ _) h
      | Friends event => exact ⟨_, rfl, h⟩
      | Typing event =>
        simp only [Update, updateTyping]
        by_cases ht : event.IsTyping = true
        · simp only [ht, if_true]
          cases hg : mapGet event.From m.EventTracking with
          | none =>
            refine ⟨_, rfl, ?_⟩
            simp only [SlotInv, List.length_append, List.length_singleton]
            exact SlotsOk_insert event.From event.Color h hg
          | some v => exact ⟨_, rfl, h⟩
        · simp only [ht, if_false]
          cases hg : mapGet event.From m.EventTracking with
          | none => exact ⟨_, rfl, h⟩
          | some v =>
            have hv : 0 ≤ v.Index ∧ v.Index < (m.Messages.length : Int) :=
              h.2.1 _ (mapGet_mem hg)
            simp only [slicesDelete_one hv.1 hv.2]
            refine ⟨_, rfl, ?_⟩
            simp only [SlotInv]
            have hlen : (m.Messages.eraseIdx v.Index.toNat).length = m.Messages.length - 1 := by
              rw [List.length_eraseIdx]
              have : v.Index.toNat < m.Messages.length := by omega
              simp [this]
            rw [hlen]
            exact SlotsOk_delete h hg

theorem runUpdates_SlotInv (evs : List (Env × Msg)) :
    ∀ m : Model, SlotInv m → ∃ m', runUpdates m evs = some m' ∧ SlotInv m' := by
  induction evs with
  | nil => intro m h; exact ⟨m, rfl, h⟩
  | cons ev rest ih =>
    intro m h
    obtain ⟨e, msg⟩ := ev
    obtain ⟨s, hs, hinv⟩ := Update_preserves_SlotInv e m msg h
    obtain ⟨m', hm', hinv'⟩ := ih s.model hinv
    exact ⟨m', by simp only [runUpdates, hs, hm'], hinv'⟩

/-- C1. Starting from the initial client session, every finite sequence of messages
handled by `Update` (received chats, sent echoes, typing events from any peers,
ticks, and every other message) is handled without a panic and leaves a state in
which every index of the peer mapping is a valid index into the transcript and no two
peers share an index. -/
theorem C1_slot_invariant (color : Int) (evs : List (Env × Msg)) :
    ∃ m, runUpdates (InitialModel color) evs = some m ∧
      (∀ p ∈ m.EventTracking, 0 ≤ p.2.Index ∧ p.2.Index < (m.Messages.length : Int)) ∧
      (m.EventTracking.map (fun p => p.2.Index)).Nodup ∧
      (m.EventTracking.map Prod.fst).Nodup := by
  have h0 : SlotInv (InitialModel color) := by
    simp [SlotInv, SlotsOk, InitialModel]
  obtain ⟨m, hm, hinv⟩ := runUpdates_SlotInv evs (InitialModel color) h0
  exact ⟨m, hm, hinv.2.1, hinv.2.2, hinv.1⟩

/-! ## Client: removal of a placeholder -/

theorem mapGet_mapDelete_self (k : String) (es : List (String × TypeInfo)) :
    mapGet k (mapDelete k es) = none := by
  rw [mapGet_eq_none_iff]
  intro h
  obtain ⟨p, hp, hpk⟩ := List.mem_map.1 h
  have : p ∈ es ∧ p.1 ≠ k := by simpa [mapDelete] using hp
  exact this.2 hpk

theorem mapGet_mapDelete_ne {k y : String} (h : y ≠ k) (es : List (String × TypeInfo)) :
    mapGet y (mapDelete k es) = mapGet y es := by
  induction es with
  | nil => rfl
  | cons p rest ih =>
    obtain ⟨k', v⟩ := p
    unfold mapDelete at ih ⊢
    by_cases hk : k' = k
    · have hy : k' ≠ y := fun hh => h (hh.symm.trans hk)
      simp only [List.filter_cons, hk, ne_eq, not_true_eq_false, decide_False,
        Bool.false_eq_true, if_false]
      rw [ih]
      subst hk
      simp only [mapGet, if_neg hy]
    · simp only [List.filter_cons, ne_eq, hk, not_false_eq_true, decide_True, if_true, mapGet]
      rw [ih]

theorem resetIndexes_cons (r : Int) (k : String) (v : TypeInfo)
    (rest : List (String × TypeInfo)) :
    resetIndexes r ((k, v) :: rest) =
      (k, if v.Index ≥ r then { v with Index := v.Index - 1 } else v) ::
        resetIndexes r rest := by
  unfold resetIndexes
  simp only [List.map_cons]
  split <;> rfl

theorem mapGet_resetIndexes (r : Int) (y : String) (es : List (String × TypeInfo)) :
    mapGet y (resetIndexes r es) =
      (mapGet y es).map
        (fun ty => if ty.Index ≥ r then { ty with Index := ty.Index - 1 } else ty) := by
  induction es with
  | nil => rfl
  | cons p rest ih =>
    obtain ⟨k', v⟩ := p
    rw [resetIndexes_cons]
    by_cases hk : k' = y
    · simp only [mapGet, if_pos hk, Option.map_some']
    · simp only [mapGet, if_neg hk]
      exact ih

/-- C2. In a state satisfying the slot invariant, a typing-false event from a peer
tracked at slot `k` is handled (no panic) and yields: the old transcript with exactly
line `k` removed; no entry for that peer; for every other tracked peer the same entry
with its index decremented exactly when it was at or after `k`, and at the new index
the very line that stood at the old index; and no entry for a peer that had none. -/
theorem C2_placeholder_removal (e : Env) (m : Model) (event : TypingMessage)
    (typing : TypeInfo) (hinv : SlotInv m) (hfalse : event.IsTyping = false)
    (htracked : mapGet event.From m.EventTracking = some typing) :
    ∃ s, Update e m (Msg.MessageRecvMsg (some (Message.Typing event))) = some s ∧
      s.model.Messages = m.Messages.eraseIdx typing.Index.toNat ∧
      s.model.Messages.length + 1 = m.Messages.length ∧
      mapGet event.From s.model.EventTracking = none ∧
      (∀ (y : String) (ty : TypeInfo), y ≠ event.From →
        mapGet y m.EventTracking = some ty →
        mapGet y s.model.EventTracking =
            some { ty with Index := if ty.Index ≥ typing.Index then ty.Index - 1
                                    else ty.Index } ∧
          ∃ line, m.Messages[ty.Index.toNat]? = some line ∧
            s.model.Messages[(if ty.Index ≥ typing.Index then ty.Index - 1
                              else ty.Index).toNat]? = some line) ∧
      (∀ y : String, mapGet y m.EventTracking = none →
        mapGet y s.model.EventTracking = none) := by
  have hv : 0 ≤ typing.Index ∧ typing.Index < (m.Messages.length : Int) :=
    hinv.2.1 _ (mapGet_mem htracked)
  have hu : Update e m (Msg.MessageRecvMsg (some (Message.Typing event))) =
      some { model := { m with
                Messages := m.Messages.eraseIdx typing.Index.toNat,
                EventTracking :=
                  resetIndexes typing.Index (mapDelete event.From m.EventTracking) },
             cmd := [Cmd.ShortLiveRecv], cancelled := [] } := by
    simp only [Update, updateTyping, hfalse, Bool.false_eq_true, if_false, htracked,
      slicesDelete_one hv.1 hv.2]
  have hlt : typing.Index.toNat < m.Messages.length := by omega
  refine ⟨_, hu, rfl, ?_, ?_, ?_, ?_⟩
  · simp only [List.length_eraseIdx, hlt, if_true]
    omega
  · simp only [mapGet_resetIndexes, mapGet_mapDelete_self, Option.map_none']
  · intro y ty hy hty
    have hty1 : 0 ≤ ty.Index ∧ ty.Index < (m.Messages.length : Int) :=
      hinv.2.1 _ (mapGet_mem hty)
    have hne : ty.Index ≠ typing.Index := by
      intro hidx
      have := List.inj_on_of_nodup_map hinv.2.2 (mapGet_mem hty) (mapGet_mem htracked) hidx
      exact hy (congrArg Prod.fst this)
    constructor
    · simp only [mapGet_resetIndexes, mapGet_mapDelete_ne hy, hty, Option.map_some']
      split <;> rfl
    · have hlt2 : ty.Index.toNat < m.Messages.length := by omega
      refine ⟨m.Messages[ty.Index.toNat], List.getElem?_eq_getElem hlt2, ?_⟩
      simp only
      rw [← List.getElem?_eq_getElem hlt2]
      by_cases hge : ty.Index ≥ typing.Index
      · simp only [hge, if_true]
        have h1 : typing.Index.toNat ≤ (ty.Index - 1).toNat := by omega
        rw [List.getElem?_eraseIdx_of_ge _ _ _ h1]
        have h2 : (ty.Index - 1).toNat + 1 = ty.Index.toNat := by omega
        rw [h2]
      · simp only [hge, if_false]
        have h1 : ty.Index.toNat < typing.Index.toNat := by omega
        rw [List.getElem?_eraseIdx_of_lt _ _ _ h1]
  · intro y hy
    by_cases hyk : y = event.From
    · subst hyk
      simp only [mapGet_resetIndexes, mapGet_mapDelete_self, Option.map_none']
    · simp only [mapGet_resetIndexes, mapGet_mapDelete_ne hyk, hy, Option.map_none']

theorem C2_placeholder_removal_witness :
    ∃ s, Update plainEnv trackedModel
        (Msg.MessageRecvMsg (some (Message.Typing
          { IsTyping := false, To := "alice", Color := 3, From := "bob" }))) = some s ∧
      s.model.Messages = ["[9:1] bob: hello", "[9:3] You: hi", "[9:4] carol: "] ∧
      mapGet "bob" s.model.EventTracking = none ∧
      mapGet "carol" s.model.EventTracking =
        some { Index := 2, Color := 4, From := "carol" } := by
  obtain ⟨s, hs, hmsgs, _, hbob, hothers, _⟩ :=
    C2_placeholder_removal plainEnv trackedModel
      { IsTyping := false, To := "alice", Color := 3, From := "bob" }
      { Index := 1, Color := 3, From := "bob" } (by decide) rfl (by decide)
  refine ⟨s, hs, ?_, hbob, ?_⟩
  · rw [hmsgs]; decide
  · rw [(hothers "carol" { Index := 3, Color := 4, From := "carol" } (by decide)
      (by decide)).1]
    decide

/-! ## Server: routing -/

/-- C3. A frame whose envelope decodes with type chat or typing and whose payload
decodes with `to = t` makes the gateway publish exactly one message: on the channel
named `t`, with the frame itself as payload; and the loop goes on. -/
theorem C3_opaque_routing {W : Type} (c : Codec W) (msg : W) (t : String)
    (hkind : ((c.UnmarshalWrapper msg).val.Typ = "chat" ∧
                (c.UnmarshalChat (c.UnmarshalWrapper msg).val.Value).val.To = t) ∨
             ((c.UnmarshalWrapper msg).val.Typ = "typing" ∧
                (c.UnmarshalTyping (c.UnmarshalWrapper msg).val.Value).val.To = t)) :
    inboundTurn c (ReadResult.frame msg) = ([(t, msg)], true) := by
  rcases hkind with ⟨hk, ht⟩ | ⟨hk, ht⟩
  · simp only [inboundTurn, hk, if_true, ht]
  · have hne : ¬ ("typing" = "chat") := by decide
    simp only [inboundTurn, hk, hne, if_false, if_true, ht]

theorem C3_opaque_routing_witness :
    inboundTurn jsonCodec (ReadResult.frame goodChatFrame) = ([("bob", goodChatFrame)], true) :=
  C3_opaque_routing jsonCodec goodChatFrame "bob" (Or.inl ⟨rfl, rfl⟩)

theorem inboundLoop_frame {W : Type} (c : Codec W) (msg : W) (rest : List (ReadResult W)) :
    inboundLoop c (ReadResult.frame msg :: rest) =
      (inboundTurn c (ReadResult.frame msg)).1 ++ inboundLoop c rest := by
  have h : (inboundTurn c (ReadResult.frame msg)).2 = true := by
    simp only [inboundTurn]
    split
    · rfl
    · split <;> rfl
  simp only [inboundLoop, h, if_true]

/-- C8, as the claim states it, fails: the chat payload of `badChatFrame` does not
decode (its text is a number), yet the gateway publishes the frame on channel bob. -/
theorem C8_counterexample :
    (jsonCodec.UnmarshalChat (jsonCodec.UnmarshalWrapper badChatFrame).val.Value).err = true ∧
      (inboundTurn jsonCodec (ReadResult.frame badChatFrame)).1 = [("bob", badChatFrame)] :=
  ⟨rfl, rfl⟩

/-- C8, amended. A decoding error never ends the inbound loop: the frames read
after the frame are processed.  A frame whose envelope decoding leaves a type other
than chat and typing publishes nothing.  A frame of type chat or typing whose payload
fails to decode is not dropped: it is published once, unchanged, on the channel named
by the `to` the decoder left. -/
theorem C8_codec_errors {W : Type} (c : Codec W) (msg : W) :
    (∀ rest, inboundLoop c (ReadResult.frame msg :: rest) =
        (inboundTurn c (ReadResult.frame msg)).1 ++ inboundLoop c rest) ∧
    ((c.UnmarshalWrapper msg).val.Typ ≠ "chat" →
      (c.UnmarshalWrapper msg).val.Typ ≠ "typing" →
      (inboundTurn c (ReadResult.frame msg)).1 = []) ∧
    ((c.UnmarshalWrapper msg).val.Typ = "chat" →
      (c.UnmarshalChat (c.UnmarshalWrapper msg).val.Value).err = true →
      (inboundTurn c (ReadResult.frame msg)).1 =
        [((c.UnmarshalChat (c.UnmarshalWrapper msg).val.Value).val.To, msg)]) ∧
    ((c.UnmarshalWrapper msg).val.Typ = "typing" →
      (c.UnmarshalTyping (c.UnmarshalWrapper msg).val.Value).err = true →
      (inboundTurn c (ReadResult.frame msg)).1 =
        [((c.UnmarshalTyping (c.UnmarshalWrapper msg).val.Value).val.To, msg)]) := by
  refine ⟨inboundLoop_frame c msg, ?_, ?_, ?_⟩
  · intro h1 h2
    simp only [inboundTurn, h1, h2, if_false]
  · intro h1 _
    simp only [inboundTurn, h1, if_true]
  · intro h1 _
    have hne : ¬ ("typing" = "chat") := by decide
    simp only [inboundTurn, h1, hne, if_false, if_true]

theorem C8_codec_errors_witness :
    (jsonCodec.UnmarshalWrapper brokenFrame).err = true ∧
    inboundLoop jsonCodec
        [ReadResult.frame brokenFrame, ReadResult.frame badChatFrame,
         ReadResult.frame goodChatFrame] =
      [("bob", badChatFrame), ("bob", goodChatFrame)] := by
  refine ⟨rfl, ?_⟩
  rw [(C8_codec_errors jsonCodec brokenFrame).1,
      (C8_codec_errors jsonCodec brokenFrame).2.1 (by decide) (by decide),
      (C8_codec_errors jsonCodec badChatFrame).1,
      (C8_codec_errors jsonCodec badChatFrame).2.2.1 rfl rfl,
      (C8_codec_errors jsonCodec goodChatFrame).1]
  rfl

/-! ## Server: presence snapshot -/

theorem foldl_copy (active : List String) :
    ∀ init : List String,
      active.foldl (fun online user => online ++ [user]) init = init ++ active := by
  induction active with
  | nil => intro init; simp
  | cons a rest ih => intro init; simp [List.foldl_cons, ih]

theorem AllActiveUsers_some (L : List String) : AllActiveUsers (some L) = some L := by
  simp [AllActiveUsers, foldl_copy]

theorem friendsSent_eq {W : Type} (c : Codec W)
    (hrt : ∀ l : List String, (c.UnmarshalStrings (c.MarshalStrings l).val).val = l)
    (L : List String) (id r : String) :
    friendsSent c (some L) id r = (L ++ [id]).filter (fun ele => !decide (r = ele)) := by
  simp only [friendsSent, presenceRelay, joinSnapshot, AllActiveUsers_some, hrt,
    Option.getD_some]

theorem stringItems_map_str (l : List String) :
    stringItems (l.map Json.str) = { val := l, err := false } := by
  induction l with
  | nil => rfl
  | cons a rest ih => simp only [List.map_cons, stringItems, ih]

theorem jsonCodec_strings_roundtrip (l : List String) :
    (jsonCodec.UnmarshalStrings (jsonCodec.MarshalStrings l).val).val = l := by
  show (stringItems (l.map Json.str)).val = l
  rw [stringItems_map_str]

/-- C4, as the claim states it, fails: when the joining identifier is already a
member of the registry (alice joins while alice and bob are listed), bob is sent a
list that contains alice twice. -/
theorem C4_counterexample :
    ["alice", "bob"].Nodup ∧
      friendsSent jsonCodec (some ["alice", "bob"]) "alice" "bob" = ["alice", "alice"] ∧
      (friendsSent jsonCodec (some ["alice", "bob"]) "alice" "bob").count "alice" = 2 := by
  refine ⟨by decide, ?_, ?_⟩
  · rw [friendsSent_eq jsonCodec jsonCodec_strings_roundtrip]; decide
  · rw [friendsSent_eq jsonCodec jsonCodec_strings_roundtrip]; decide

/-- C4, amended. With a codec that returns the string lists it encoded, for every
duplicate-free membership list `L`, every joining `id` that is not yet in `L` and
every recipient `r`: the friends list sent to `r` does not contain `r`, contains every
identifier of `L` and `id`, other than `r`, exactly once, and contains nothing else.
After alice joined, when bob joins, bob is sent alice and alice is sent bob. -/
theorem C4_presence_snapshot {W : Type} (c : Codec W)
    (hrt : ∀ l : List String, (c.UnmarshalStrings (c.MarshalStrings l).val).val = l)
    (L : List String) (id r : String) (hL : L.Nodup) (hid : id ∉ L) :
    r ∉ friendsSent c (some L) id r ∧
    (∀ x, x ≠ r → (x ∈ L ∨ x = id) → (friendsSent c (some L) id r).count x = 1) ∧
    (∀ x ∈ friendsSent c (some L) id r, x ∈ L ∨ x = id) ∧
    friendsSent c (some ["alice"]) "bob" "bob" = ["alice"] ∧
    friendsSent c (some ["alice"]) "bob" "alice" = ["bob"] := by
  have hnd : (L ++ [id]).Nodup := by
    rw [List.nodup_append]
    refine ⟨hL, by simp, ?_⟩
    intro a ha hb
    simp only [List.mem_singleton] at hb
    subst hb; exact hid ha
  refine ⟨?_, ?_, ?_, ?_, ?_⟩
  · rw [friendsSent_eq c hrt]
    simp [List.mem_filter]
  · intro x hx hmem
    rw [friendsSent_eq c hrt]
    apply List.count_eq_one_of_mem (hnd.filter _)
    rw [List.mem_filter]
    refine ⟨?_, ?_⟩
    · rcases hmem with h | h
      · exact List.mem_append_left _ h
      · subst h; simp
    · simpa using fun h => hx h.symm
  · intro x hx
    rw [friendsSent_eq c hrt, List.mem_filter, List.mem_append, List.mem_singleton] at hx
    exact hx.1
  · rw [friendsSent_eq c hrt]; decide
  · rw [friendsSent_eq c hrt]; decide

theorem C4_presence_snapshot_witness :
    "carol" ∉ friendsSent jsonCodec (some ["alice", "bob", "carol"]) "dave" "carol" ∧
    (friendsSent jsonCodec (some ["alice", "bob", "carol"]) "dave" "carol").count "dave" = 1 :=
  ⟨(C4_presence_snapshot jsonCodec jsonCodec_strings_roundtrip ["alice", "bob", "carol"]
      "dave" "carol" (by decide) (by decide)).1,
   (C4_presence_snapshot jsonCodec jsonCodec_strings_roundtrip ["alice", "bob", "carol"]
      "dave" "carol" (by decide) (by decide)).2.1 "dave" (by decide) (Or.inr rfl)⟩

/-! ## Client: keys that restart the heartbeat -/

/-- C7, the code at the failing inputs. In the conversation view the keys Esc, Up,
Down, PgUp and PgDown are not in `BlackListTypingKeys`: `Update` cancels the current
typing context, installs a new one and returns a new `TypingObserver` command (and
the quit and scroll cases further down are not reached). -/
theorem C7_unlisted_keys_restart (e : Env) (m : Model) (t : KeyType) (runes : List Char)
    (hwin : m.CurrWindow = 3)
    (ht : t ∈ [KeyEsc, KeyUp, KeyDown, KeyPgUp, KeyPgDown]) :
    ∃ s, Update e m (Msg.KeyMsg t runes) = some s ∧
      s.cancelled = [m.TypingCtx] ∧
      s.model.TypingCtx = m.TypingCtx + 1 ∧
      Cmd.TypingObserver (m.TypingCtx + 1) m.Friend m.Theme m.WhoAmI ∈ s.cmd ∧
      Cmd.FinalWords ∉ s.cmd := by
  have hnb : t ∉ BlackListTypingKeys := by
    simp only [List.mem_cons, List.mem_singleton, List.not_mem_nil, or_false] at ht
    rcases ht with h | h | h | h | h <;> subst h <;> decide
  refine ⟨_, rfl, ?_, ?_, ?_, ?_⟩
  · simp only [updateKey, hwin, hnb, not_false_eq_true, and_self, if_true]
  · simp only [updateKey, hwin, hnb, not_false_eq_true, and_self, if_true]
  · simp only [updateKey, hwin, hnb, not_false_eq_true, and_self, if_true]
    exact List.mem_cons_self _ _
  · simp only [updateKey, hwin, hnb, not_false_eq_true, and_self, if_true]
    simp

theorem C7_unlisted_keys_restart_witness :
    ∃ s, Update plainEnv conversationModel (Msg.KeyMsg KeyEsc []) = some s ∧
      s.cancelled = [4] ∧ s.model.TypingCtx = 5 ∧
      Cmd.TypingObserver 5 "bob" 5 "alice" ∈ s.cmd ∧ Cmd.FinalWords ∉ s.cmd :=
  C7_unlisted_keys_restart plainEnv conversationModel KeyEsc [] rfl (by decide)

/-- The listed keys Enter and Ctrl+C do not restart the heartbeat. -/
theorem listed_keys_keep_heartbeat (e : Env) (m : Model) (t : KeyType) (runes : List Char)
    (ht : t = KeyEnter ∨ t = KeyCtrlC) :
    (updateKey e m t runes).cancelled = [] ∧
      (updateKey e m t runes).model.TypingCtx = m.TypingCtx ∧
      ∀ ctx toUser color frm,
        Cmd.TypingObserver ctx toUser color frm ∉ (updateKey e m t runes).cmd := by
  have hb : t ∈ BlackListTypingKeys := by
    rcases ht with h | h <;> subst h <;> decide
  have h1 : ¬ (m.CurrWindow = 3 ∧ t ∉ BlackListTypingKeys) := fun h => h.2 hb
  rcases ht with h | h
  · subst h
    have h2 : ¬ (KeyEnter = KeyCtrlC ∨ KeyEnter = KeyEsc) := by decide
    have h3 : ¬ (KeyEnter = KeyUp ∨ KeyEnter = KeyPgUp) := by decide
    have h4 : ¬ (KeyEnter = KeyDown ∨ KeyEnter = KeyPgDown) := by decide
    simp only [updateKey, h1, h2, h3, h4, if_false, if_true]
    refine ⟨?_, ?_, ?_⟩
    all_goals
      repeat' split
      all_goals simp [widgetTail]
  · subst h
    have h2 : KeyCtrlC = KeyCtrlC ∨ KeyCtrlC = KeyEsc := Or.inl rfl
    simp only [updateKey, h1, h2, if_false, if_true]
    simp

/-! ## Client: the drain of the hand-off channel -/

/-- C9, the code at the failing input. A frame of unknown type makes the read task
push a `MessageRecvMsg` with a nil message; `Update` leaves the transcript and the
mapping as they are, but the command it returns does not include `ShortLiveRecv`: an
event pushed after it is never received. -/
theorem C9_unknown_kind_stops_drain (e : Env) (m : Model) :
    RecvMessage jsonCodec (ReadResult.frame pingFrame) = RecvTurn.pushed none ∧
    ∃ s, Update e m (Msg.MessageRecvMsg none) = some s ∧
      Cmd.ShortLiveRecv ∉ s.cmd ∧
      s.model.Messages = m.Messages ∧
      s.model.EventTracking = m.EventTracking ∧
      ∀ ev, drainEvents e m true [none, ev] = some (s.model, [ev]) := by
  refine ⟨rfl, _, rfl, ?_, rfl, rfl, ?_⟩
  · simp [widgetTail]
  · intro ev
    simp [drainEvents, Update, widgetTail]

/-- The known kinds do re-arm the drain: whenever `Update` returns for a chat,
typing or friends event, its command includes `ShortLiveRecv`. -/
theorem known_kinds_rearm (e : Env) (m : Model) (event : Message) (s : Step)
    (h : Update e m (Msg.MessageRecvMsg (some event)) = some s) :
    Cmd.ShortLiveRecv ∈ s.cmd := by
  cases event with
  | Chat ev => simp only [Update, Option.some.injEq] at h; subst h; simp
  | Friends ev => simp only [Update, Option.some.injEq] at h; subst h; simp
  | Typing ev =>
    simp only [Update, updateTyping] at h
    split at h
    · split at h <;> (simp only [Option.some.injEq] at h; subst h; simp)
    · split at h
      · split at h
        · simp at h
        · simp only [Option.some.injEq] at h; subst h; simp
      · simp only [Option.some.injEq] at h; subst h; simp

/-! ## Client: sending -/

/-- C10. When the chat payload marshals, `SendText` first writes the chat envelope
whose value is the marshalled `ChatMessage` (to, from, text, color).  If that write
succeeds it then writes the typing envelope with isTyping false for the same pair
and reports `MessageSentMsg`, whatever the second write returns; if the chat write
fails, nothing more is written and the error is reported.  `MessageSentMsg` is
reported only after a successful chat write.  Handling `MessageSentMsg` appends
exactly one line after the earlier lines; handling the error appends none. -/
theorem C10_send_and_echo {W : Type} (c : Codec W) (conn : Conn W)
    (whoAmI friend text : String) (color : Int)
    (hm : (c.MarshalChat { To := friend, From := whoAmI, Text := text,
                           Color := color }).err = false) :
    ((SyncSend conn (chatWrapper c whoAmI friend text color)).2 = none →
      (SendText c conn whoAmI friend text color).2 = Msg.MessageSentMsg ∧
      ∃ err2, (SendText c conn whoAmI friend text color).1.log =
        conn.log ++ [(chatWrapper c whoAmI friend text color, none),
                     (JsonTyping c false friend color whoAmI, err2)]) ∧
    (∀ err, (SyncSend conn (chatWrapper c whoAmI friend text color)).2 = some err →
      (SendText c conn whoAmI friend text color).2 = Msg.ErrorMsg err ∧
      (SendText c conn whoAmI friend text color).1.log =
        conn.log ++ [(chatWrapper c whoAmI friend text color, some err)]) ∧
    ((SendText c conn whoAmI friend text color).2 = Msg.MessageSentMsg →
      (SyncSend conn (chatWrapper c whoAmI friend text color)).2 = none) ∧
    (chatWrapper c whoAmI friend text color).Typ = "chat" ∧
    (chatWrapper c whoAmI friend text color).Value =
      (c.MarshalChat { To := friend, From := whoAmI, Text := text, Color := color }).val ∧
    (JsonTyping c false friend color whoAmI).Typ = "typing" ∧
    (JsonTyping c false friend color whoAmI).Value =
      (c.MarshalTyping { IsTyping := false, To := friend, Color := color,
                         From := whoAmI }).val ∧
    (∀ (e : Env) (m : Model), ∃ s line, Update e m Msg.MessageSentMsg = some s ∧
      s.model.Messages = m.Messages ++ [line] ∧ s.model.EventTracking = m.EventTracking) ∧
    (∀ (e : Env) (m : Model) (err : String), ∃ s, Update e m (Msg.ErrorMsg err) = some s ∧
      s.model.Messages = m.Messages) := by
  refine ⟨?_, ?_, ?_, rfl, rfl, rfl, rfl, ?_, ?_⟩
  · intro h
    rcases hf : conn.failures with _ | ⟨f, rest⟩
    · refine ⟨?_, none, ?_⟩
      · simp [SendText, hm, SyncSend, hf]
      · simp [SendText, hm, SyncSend, hf]
    · have hfn : f = none := by simpa [SyncSend, hf] using h
      subst hfn
      rcases hr : rest with _ | ⟨f2, rest2⟩
      · refine ⟨?_, none, ?_⟩
        · simp [SendText, hm, SyncSend, hf]
        · simp [SendText, hm, SyncSend, hf, hr]
      · refine ⟨?_, f2, ?_⟩
        · simp [SendText, hm, SyncSend, hf]
        · simp [SendText, hm, SyncSend, hf, hr]
  · intro err h
    rcases hf : conn.failures with _ | ⟨f, rest⟩
    · simp [SyncSend, hf] at h
    · have hfn : f = some err := by simpa [SyncSend, hf] using h
      subst hfn
      simp [SendText, hm, SyncSend, hf]
  · intro h
    rcases hf : conn.failures with _ | ⟨f, rest⟩
    · simp [SyncSend, hf]
    · cases f with
      | none => simp [SyncSend, hf]
      | some err => simp [SendText, hm, SyncSend, hf] at h
  · intro e m
    exact ⟨_, _, rfl, rfl, rfl⟩
  · intro e m err
    exact ⟨_, rfl, rfl⟩

theorem C10_send_and_echo_witness :
    (SendText jsonCodec { failures := [none, some "broken pipe"], log := [] }
        "alice" "bob" "hi" 7).2 = Msg.MessageSentMsg ∧
    (SendText jsonCodec { failures := [some "broken pipe"], log := [] }
        "alice" "bob" "hi" 7).2 = Msg.ErrorMsg "broken pipe" :=
  ⟨((C10_send_and_echo jsonCodec { failures := [none, some "broken pipe"], log := [] }
      "alice" "bob" "hi" 7 rfl).1 rfl).1,
   ((C10_send_and_echo jsonCodec { failures := [some "broken pipe"], log := [] }
      "alice" "bob" "hi" 7 rfl).2.1 "broken pipe" rfl).1⟩

/-! ## Client: the typing heartbeat -/

theorem startCmds_widgets {W : Type} (c : Codec W) (start : Nat) (s : Session W)
    (ids : List Nat) : startCmds c start s (ids.map Cmd.Widget) = s := by
  induction ids with
  | nil => rfl
  | cons a rest ih => simpa [startCmds] using ih

theorem fireTimers_none {W : Type} (c : Codec W) (now : Nat) (s : Session W)
    (h : ∀ hb ∈ s.waiting, now < hb.deadline) : fireTimers c now s = s := by
  have h1 : s.waiting.filter (fun hb => decide (hb.deadline ≤ now)) = [] := by
    rw [List.filter_eq_nil_iff]
    intro hb hmem
    have := h hb hmem
    simp only [decide_eq_true_eq]
    omega
  have h2 : s.waiting.filter (fun hb => decide (¬ hb.deadline ≤ now)) = s.waiting := by
    rw [List.filter_eq_self]
    intro hb hmem
    have := h hb hmem
    simp only [decide_eq_true_eq]
    omega
  simp only [fireTimers, h1, h2, List.foldl_nil]

theorem SyncSend_log {W : Type} (conn : Conn W) (w : MessageWrapper W) :
    (SyncSend conn w).1.log = conn.log ++ [(w, (SyncSend conn w).2)] := by
  unfold SyncSend
  split <;> rfl

theorem isTypingWrite_JsonTyping {W : Type} (c : Codec W)
    (hrt : ∀ tm : TypingMessage, (c.UnmarshalTyping (c.MarshalTyping tm).val).val = tm)
    (b b' : Bool) (toUser : String) (color : Int) (frm : String) (err : Option String) :
    isTypingWrite c b (JsonTyping c b' toUser color frm, err) = (b' == b) := by
  simp [isTypingWrite, JsonTyping, hrt]

theorem countTyping_SyncSend {W : Type} (c : Codec W)
    (hrt : ∀ tm : TypingMessage, (c.UnmarshalTyping (c.MarshalTyping tm).val).val = tm)
    (b b' : Bool) (conn : Conn W) (toUser : String) (color : Int) (frm : String) :
    countTyping c b (SyncSend conn (JsonTyping c b' toUser color frm)).1 =
      countTyping c b conn + (if b' = b then 1 else 0) := by
  simp only [countTyping, SyncSend_log, List.countP_append, List.countP_cons, List.countP_nil,
    isTypingWrite_JsonTyping c hrt, beq_iff_eq, Nat.zero_add]

theorem keystroke_trigger {W : Type} (c : Codec W) (s : Session W) (k : KeyEvent)
    (hwin : s.model.CurrWindow = 3) (hk : k.Typ ∉ BlackListTypingKeys)
    (hw : ∀ hb ∈ s.waiting, hb.ctx = s.model.TypingCtx ∧ k.time < hb.deadline) :
    keystroke c s k =
      { model := { s.model with
                   TextArea := k.env.TextAreaUpdate s.model.TextArea (Msg.KeyMsg k.Typ k.Runes),
                   TypingCtx := s.model.TypingCtx + 1 },
        conn := (SyncSend s.conn
                  (JsonTyping c true s.model.Friend s.model.Theme s.model.WhoAmI)).1,
        waiting := [{ ctx := s.model.TypingCtx + 1,
                      deadline := k.time + k.delay + quietWindow,
                      toUser := s.model.Friend, color := s.model.Theme,
                      frm := s.model.WhoAmI }] } := by
  have hf : s.waiting.filter (fun hb => decide (hb.ctx ∉ [s.model.TypingCtx])) = [] := by
    rw [List.filter_eq_nil_iff]
    intro hb hmem
    simp [(hw hb hmem).1]
  unfold keystroke
  rw [fireTimers_none c k.time s (fun hb hmem => (hw hb hmem).2)]
  simp only [updateKey, hwin, hk, not_false_eq_true, and_self, if_true, startCmds,
    startCmds_widgets, TypingObserverStart, hf, List.nil_append]

/-- What a run of heartbeat-triggering key presses leaves behind. -/
theorem keystrokes_burst {W : Type} (c : Codec W)
    (hrt : ∀ tm : TypingMessage, (c.UnmarshalTyping (c.MarshalTyping tm).val).val = tm) :
    ∀ (ks : List KeyEvent) (s : Session W),
      IsBurst ks → (∀ k ∈ ks, k.Typ ∉ BlackListTypingKeys) → s.model.CurrWindow = 3 →
      (∀ k0, ks.head? = some k0 →
        ∀ hb ∈ s.waiting, hb.ctx = s.model.TypingCtx ∧ k0.time < hb.deadline) →
      countTyping c false (keystrokes c s ks).conn = countTyping c false s.conn ∧
      countTyping c true (keystrokes c s ks).conn = countTyping c true s.conn + ks.length ∧
      (keystrokes c s ks).model.TypingCtx = s.model.TypingCtx + ks.length ∧
      (∀ kl, ks.getLast? = some kl →
        ∃ hb, (keystrokes c s ks).waiting = [hb] ∧
          hb.ctx = s.model.TypingCtx + ks.length ∧
          hb.deadline = kl.time + kl.delay + quietWindow) := by
  intro ks
  induction ks with
  | nil =>
    intro s _ _ _ _
    simp [keystrokes]
  | cons k rest ih =>
    intro s hb hkeys hwin hw
    have hk := hkeys k (List.mem_cons_self _ _)
    have hstep := keystroke_trigger c s k hwin hk (hw k rfl)
    have hrest : IsBurst rest := List.Chain'.tail hb
    have hwin1 : (keystroke c s k).model.CurrWindow = 3 := by rw [hstep]; exact hwin
    have hw1 : ∀ k0, rest.head? = some k0 →
        ∀ h ∈ (keystroke c s k).waiting,
          h.ctx = (keystroke c s k).model.TypingCtx ∧ k0.time < h.deadline := by
      intro k0 hk0 h hmem
      rw [hstep] at hmem ⊢
      simp only [List.mem_singleton] at hmem
      subst hmem
      refine ⟨rfl, ?_⟩
      have hrel := List.Chain'.rel_head? hb hk0
      simp only
      omega
    obtain ⟨i1, i2, i3, i4⟩ :=
      ih (keystroke c s k) hrest (fun k' hk' => hkeys k' (List.mem_cons_of_mem _ hk'))
        hwin1 hw1
    have e1 : keystrokes c s (k :: rest) = keystrokes c (keystroke c s k) rest := rfl
    have c1 : countTyping c false (keystroke c s k).conn = countTyping c false s.conn := by
      rw [hstep]; simp [countTyping_SyncSend c hrt]
    have c2 : countTyping c true (keystroke c s k).conn = countTyping c true s.conn + 1 := by
      rw [hstep]; simp [countTyping_SyncSend c hrt]
    have c3 : (keystroke c s k).model.TypingCtx = s.model.TypingCtx + 1 := by
      rw [hstep]
    refine ⟨?_, ?_, ?_, ?_⟩
    · rw [e1, i1, c1]
    · rw [e1, i2, c2, List.length_cons]; omega
    · rw [e1, i3, c3, List.length_cons]; omega
    · intro kl hkl
      cases rest with
      | nil =>
        simp only [List.getLast?_singleton, Option.some.injEq] at hkl
        subst hkl
        refine ⟨_, by rw [e1]; simp only [keystrokes, List.foldl_nil]; rw [hstep], ?_, ?_⟩
        · simp
        · rfl
      | cons k2 rest2 =>
        rw [List.getLast?_cons_cons] at hkl
        obtain ⟨h, hh1, hh2, hh3⟩ := i4 kl hkl
        refine ⟨h, by rw [e1]; exact hh1, ?_, hh3⟩
        rw [hh2, c3]
        simp only [List.length_cons]
        omega

theorem countTyping_settle_one {W : Type} (c : Codec W)
    (hrt : ∀ tm : TypingMessage, (c.UnmarshalTyping (c.MarshalTyping tm).val).val = tm)
    (s : Session W) (hb : Heartbeat) (hw : s.waiting = [hb]) :
    countTyping c false (settle c s).conn = countTyping c false s.conn + 1 ∧
    countTyping c true (settle c s).conn = countTyping c true s.conn := by
  simp [settle, hw, TypingObserverTimer, countTyping_SyncSend c hrt]

theorem fireTimers_one {W : Type} (c : Codec W)
    (hrt : ∀ tm : TypingMessage, (c.UnmarshalTyping (c.MarshalTyping tm).val).val = tm)
    (s : Session W) (hb : Heartbeat) (hw : s.waiting = [hb]) (now : Nat) :
    countTyping c false (fireTimers c now s).conn =
      countTyping c false s.conn + (if hb.deadline ≤ now then 1 else 0) := by
  by_cases h : hb.deadline ≤ now
  · simp [fireTimers, hw, h, TypingObserverTimer, countTyping_SyncSend c hrt]
  · simp [fireTimers, hw, h]

theorem jsonCodec_typing_roundtrip (tm : TypingMessage) :
    (jsonCodec.UnmarshalTyping (jsonCodec.MarshalTyping tm).val).val = tm := by
  cases tm
  rfl

/-- C5. For every burst of at least one heartbeat-triggering key press in the
conversation view, started with no heartbeat running: after the n-th key press no
typing:false has been written and the only heartbeat still waiting is the one of
the n-th key press, under the current context (the earlier ones ended through their
cancelled context); whenever the timers are looked at afterwards at most one
typing:false has been written, and once the last heartbeat has run out its timer
exactly one. -/
theorem C5_heartbeat_single_flight {W : Type} (c : Codec W)
    (hrt : ∀ tm : TypingMessage, (c.UnmarshalTyping (c.MarshalTyping tm).val).val = tm)
    (s : Session W) (ks : List KeyEvent) (hne : ks ≠ []) (hburst : IsBurst ks)
    (hkeys : ∀ k ∈ ks, k.Typ ∉ BlackListTypingKeys)
    (hwin : s.model.CurrWindow = 3) (hquiet : s.waiting = []) :
    (∀ n, 0 < n → n ≤ ks.length →
      countTyping c false (keystrokes c s (ks.take n)).conn = countTyping c false s.conn ∧
      ∃ hb, (keystrokes c s (ks.take n)).waiting = [hb] ∧
        hb.ctx = (keystrokes c s (ks.take n)).model.TypingCtx ∧
        hb.ctx = s.model.TypingCtx + n) ∧
    (∀ now, countTyping c false (fireTimers c now (keystrokes c s ks)).conn ≤
        countTyping c false s.conn + 1) ∧
    countTyping c false (settle c (keystrokes c s ks)).conn =
      countTyping c false s.conn + 1 := by
  have hw : ∀ (l : List KeyEvent) k0, l.head? = some k0 →
      ∀ hb ∈ s.waiting, hb.ctx = s.model.TypingCtx ∧ k0.time < hb.deadline := by
    intro l k0 _ hb hmem
    rw [hquiet] at hmem
    simp at hmem
  have hpre : ∀ n, 0 < n → n ≤ ks.length →
      countTyping c false (keystrokes c s (ks.take n)).conn = countTyping c false s.conn ∧
      ∃ hb, (keystrokes c s (ks.take n)).waiting = [hb] ∧
        hb.ctx = (keystrokes c s (ks.take n)).model.TypingCtx ∧
        hb.ctx = s.model.TypingCtx + n := by
    intro n hn hle
    have hlen : (ks.take n).length = n := by
      rw [List.length_take]; omega
    obtain ⟨i1, _, i3, i4⟩ :=
      keystrokes_burst c hrt (ks.take n) s (List.Chain'.take hburst n)
        (fun k hk => hkeys k (List.mem_of_mem_take hk)) hwin (hw (ks.take n))
    have hne' : ks.take n ≠ [] := by
      intro h
      rw [h] at hlen
      simp at hlen
      omega
    obtain ⟨kl, hkl⟩ := Option.isSome_iff_exists.1
      (by simpa [List.getLast?_isSome] using hne' : (ks.take n).getLast?.isSome = true)
    obtain ⟨hb, h1, h2, _⟩ := i4 kl hkl
    rw [hlen] at h2 i3
    exact ⟨i1, hb, h1, by rw [h2, i3], h2⟩
  have hlast := hpre ks.length (List.length_pos.2 hne) (le_refl _)
  rw [List.take_length] at hlast
  obtain ⟨hc, hb, hwait, _, _⟩ := hlast
  refine ⟨hpre, ?_, ?_⟩
  · intro now
    rw [fireTimers_one c hrt _ hb hwait now, hc]
    split <;> omega
  · rw [(countTyping_settle_one c hrt _ hb hwait).1, hc]

theorem C5_heartbeat_single_flight_witness :
    countTyping jsonCodec false (settle jsonCodec (keystrokes jsonCodec quietSession threeKeys)).conn
      = 1 := by
  have h := (C5_heartbeat_single_flight jsonCodec jsonCodec_typing_roundtrip quietSession
    threeKeys (List.cons_ne_nil _ _)
    (by simp [IsBurst, threeKeys, runeKey, quietWindow]) (by decide) rfl rfl).2.2
  rw [h]
  rfl

/-- C6, as the claim states it, fails: when three characters are typed one second
apart, three typing:true envelopes are written (one by each key press), not one. -/
theorem C6_counterexample :
    countTyping jsonCodec true (settle jsonCodec (keystrokes jsonCodec quietSession threeKeys)).conn
      = 3 := by
  have hb : IsBurst threeKeys := by simp [IsBurst, threeKeys, runeKey, quietWindow]
  have hk : ∀ k ∈ threeKeys, k.Typ ∉ BlackListTypingKeys := by decide
  obtain ⟨_, i2, _, i4⟩ := keystrokes_burst jsonCodec jsonCodec_typing_roundtrip threeKeys
    quietSession hb hk rfl (by intro k0 _ h hmem; simp [quietSession] at hmem)
  obtain ⟨h, hw, _, _⟩ := i4 (runeKey 2000 5 'c') rfl
  rw [(countTyping_settle_one jsonCodec jsonCodec_typing_roundtrip _ h hw).2, i2]
  rfl

/-- C6, amended. When three characters are typed in the conversation view, each at
most one second after the one before (quiet window three seconds), with no heartbeat
running before: exactly three typing:true envelopes are written, one by each key
press; no typing:false is written before the window has elapsed from the last key
press; and once the timer of the last heartbeat has fired exactly one typing:false is
written. -/
theorem C6_typing_burst {W : Type} (c : Codec W)
    (hrt : ∀ tm : TypingMessage, (c.UnmarshalTyping (c.MarshalTyping tm).val).val = tm)
    (s : Session W) (k1 k2 k3 : KeyEvent)
    (h12 : k1.time ≤ k2.time ∧ k2.time ≤ k1.time + 1000)
    (h23 : k2.time ≤ k3.time ∧ k3.time ≤ k2.time + 1000)
    (hkeys : ∀ k ∈ [k1, k2, k3], k.Typ ∉ BlackListTypingKeys)
    (hwin : s.model.CurrWindow = 3) (hquiet : s.waiting = []) :
    countTyping c true (keystrokes c s [k1, k2, k3]).conn = countTyping c true s.conn + 3 ∧
    countTyping c true (settle c (keystrokes c s [k1, k2, k3])).conn =
      countTyping c true s.conn + 3 ∧
    (∀ now, now < k3.time + quietWindow →
      countTyping c false (fireTimers c now (keystrokes c s [k1, k2, k3])).conn =
        countTyping c false s.conn) ∧
    (∀ now, k3.time + k3.delay + quietWindow ≤ now →
      countTyping c false (fireTimers c now (keystrokes c s [k1, k2, k3])).conn =
        countTyping c false s.conn + 1) ∧
    countTyping c false (settle c (keystrokes c s [k1, k2, k3])).conn =
      countTyping c false s.conn + 1 := by
  have hb : IsBurst [k1, k2, k3] := by
    simp only [IsBurst, List.chain'_cons, List.chain'_singleton, and_true, quietWindow]
    omega
  obtain ⟨i1, i2, _, i4⟩ := keystrokes_burst c hrt [k1, k2, k3] s hb hkeys hwin
    (by intro k0 _ h hmem; rw [hquiet] at hmem; simp at hmem)
  obtain ⟨h, hw, _, hd⟩ := i4 k3 rfl
  have hlen : [k1, k2, k3].length = 3 := rfl
  rw [hlen] at i2
  refine ⟨i2, ?_, ?_, ?_, ?_⟩
  · rw [(countTyping_settle_one c hrt _ h hw).2, i2]
  · intro now hnow
    rw [fireTimers_one c hrt _ h hw now, i1, hd]
    have : ¬ (k3.time + k3.delay + quietWindow ≤ now) := by omega
    simp [this]
  · intro now hnow
    rw [fireTimers_one c hrt _ h hw now, i1, hd]
    simp [hnow]
  · rw [(countTyping_settle_one c hrt _ h hw).1, i1]

theorem C6_typing_burst_witness :
    countTyping jsonCodec false
        (settle jsonCodec (keystrokes jsonCodec quietSession
          [runeKey 0 2 'a', runeKey 1000 0 'b', runeKey 2000 5 'c'])).conn = 1 := by
  have h := (C6_typing_burst jsonCodec jsonCodec_typing_roundtrip quietSession
    (runeKey 0 2 'a') (runeKey 1000 0 'b') (runeKey 2000 5 'c')
    (by decide) (by decide) (by decide) rfl rfl).2.2.2.2
  rw [h]
  rfl

/-! ## Client: redundant typing events -/

theorem mapGet_append_new (k : String) (v : TypeInfo) (es : List (String × TypeInfo))
    (h : mapGet k es = none) : mapGet k (es ++ [(k, v)]) = some v := by
  induction es with
  | nil => simp [mapGet]
  | cons p rest ih =>
    obtain ⟨k', v'⟩ := p
    by_cases hk : k' = k
    · simp [mapGet, hk] at h
    · simp only [mapGet, if_neg hk] at h
      simp only [List.cons_append, mapGet, if_neg hk]
      exact ih h

theorem Update_typing_true_tracked (e : Env) (m : Model) (event : TypingMessage)
    (ty : TypeInfo) (ht : event.IsTyping = true)
    (hty : mapGet event.From m.EventTracking = some ty) :
    Update e m (Msg.MessageRecvMsg (some (Message.Typing event))) =
      some { model := m, cmd := [Cmd.ShortLiveRecv], cancelled := [] } := by
  simp only [Update, updateTyping, ht, if_true, hty]

theorem Update_typing_false_untracked (e : Env) (m : Model) (event : TypingMessage)
    (hf : event.IsTyping = false) (hnone : mapGet event.From m.EventTracking = none) :
    Update e m (Msg.MessageRecvMsg (some (Message.Typing event))) =
      some { model := m, cmd := [Cmd.ShortLiveRecv], cancelled := [] } := by
  simp only [Update, updateTyping, hf, Bool.false_eq_true, if_false, hnone]

/-- C12. For every client state: a typing-true event from a peer that has a tracked
placeholder, and a typing-false event from a peer that has none, are handled and leave
the whole model, so the transcript and the peer mapping, as it was; and whenever a
typing event has been handled, handling the same event once more leaves the
transcript and the mapping as the first handling left them.  (The first handling
returns in every state that satisfies the slot invariant.) -/
theorem C12_redundant_typing_noop (e : Env) (m : Model) (event : TypingMessage) :
    (event.IsTyping = true → (∃ ty, mapGet event.From m.EventTracking = some ty) →
      ∃ s, Update e m (Msg.MessageRecvMsg (some (Message.Typing event))) = some s ∧
        s.model = m) ∧
    (event.IsTyping = false → mapGet event.From m.EventTracking = none →
      ∃ s, Update e m (Msg.MessageRecvMsg (some (Message.Typing event))) = some s ∧
        s.model = m) ∧
    (∀ (e2 : Env) (s1 : Step),
      Update e m (Msg.MessageRecvMsg (some (Message.Typing event))) = some s1 →
      ∃ s2, Update e2 s1.model (Msg.MessageRecvMsg (some (Message.Typing event))) = some s2 ∧
        s2.model.Messages = s1.model.Messages ∧
        s2.model.EventTracking = s1.model.EventTracking) ∧
    (SlotInv m →
      ∃ s1, Update e m (Msg.MessageRecvMsg (some (Message.Typing event))) = some s1) := by
  refine ⟨?_, ?_, ?_, ?_⟩
  rotate_left 3
  · intro hinv
    obtain ⟨s1, h1, _⟩ := Update_preserves_SlotInv e m
      (Msg.MessageRecvMsg (some (Message.Typing event))) hinv
    exact ⟨s1, h1⟩
  · rintro ht ⟨ty, hty⟩
    exact ⟨_, Update_typing_true_tracked e m event ty ht hty, rfl⟩
  · intro hf hnone
    exact ⟨_, Update_typing_false_untracked e m event hf hnone, rfl⟩
  · intro e2 s1 h1
    by_cases ht : event.IsTyping = true
    · have hsome : ∃ ty, mapGet event.From s1.model.EventTracking = some ty := by
        simp only [Update, updateTyping, ht, if_true] at h1
        cases hg : mapGet event.From m.EventTracking with
        | none =>
          rw [hg] at h1
          simp only [Option.some.injEq] at h1
          subst h1
          exact ⟨_, mapGet_append_new _ _ _ hg⟩
        | some ty =>
          rw [hg] at h1
          simp only [Option.some.injEq] at h1
          subst h1
          exact ⟨ty, hg⟩
      obtain ⟨ty, hty⟩ := hsome
      exact ⟨_, Update_typing_true_tracked e2 s1.model event ty ht hty, rfl, rfl⟩
    · have hf : event.IsTyping = false := by simpa using ht
      have hnone : mapGet event.From s1.model.EventTracking = none := by
        simp only [Update, updateTyping, hf, Bool.false_eq_true, if_false] at h1
        cases hg : mapGet event.From m.EventTracking with
        | none =>
          rw [hg] at h1
          simp only [Option.some.injEq] at h1
          subst h1
          exact hg
        | some ty =>
          rw [hg] at h1
          simp only at h1
          cases hd : slicesDelete m.Messages ty.Index (ty.Index + 1) with
          | none => rw [hd] at h1; simp at h1
          | some msgs =>
            rw [hd] at h1
            simp only [Option.some.injEq] at h1
            subst h1
            simp only [mapGet_resetIndexes, mapGet_mapDelete_self, Option.map_none']
      exact ⟨_, Update_typing_false_untracked e2 s1.model event hf hnone, rfl, rfl⟩

theorem C12_redundant_typing_noop_witness :
    ∃ s, Update plainEnv trackedModel
        (Msg.MessageRecvMsg (some (Message.Typing
          { IsTyping := true, To := "alice", Color := 9, From := "carol" }))) = some s ∧
      s.model = trackedModel :=
  (C12_redundant_typing_noop plainEnv trackedModel
    { IsTyping := true, To := "alice", Color := 9, From := "carol" }).1 rfl
    ⟨{ Index := 3, Color := 4, From := "carol" }, by decide⟩

/-! ## Server: deregistration at the end of a session -/

theorem not_mem_SRem (members : List String) (id : String) : id ∉ SRem members id := by
  simp [SRem, List.mem_filter]

theorem mem_SRem_of_ne {members : List String} {id x : String} (hx : x ≠ id)
    (h : x ∈ members) : x ∈ SRem members id := by
  simp [SRem, List.mem_filter, h, hx]

theorem mem_SAdd_self (members : List String) (id : String) : id ∈ SAdd members id := by
  unfold SAdd
  split
  · assumption
  · simp

theorem mem_SAdd_of_mem {members : List String} {x : String} (id : String)
    (h : x ∈ members) : x ∈ SAdd members id := by
  unfold SAdd
  split
  · exact h
  · exact List.mem_append_left _ h

/-- The condition kept by every event of a session with a connection, `start` being
the registry the session registered in: once the inbound goroutine has returned the
handler has returned; until the handler returns the registry is `start`; once it has
returned the registry is `start` after the `SRem` call. -/
theorem gatewayStep_inv {W : Type} (c : Codec W) (id : String) (sremFails : Bool)
    (start : List String) (g : Gateway W) (ev : GatewayEvent W)
    (h1 : g.reading = false → g.returned = true)
    (h2 : g.returned = false → g.registry = start)
    (h3 : g.returned = true →
      g.registry = if sremFails then start else SRem start id) :
    ((gatewayStep c id sremFails g ev).reading = false →
        (gatewayStep c id sremFails g ev).returned = true) ∧
    ((gatewayStep c id sremFails g ev).returned = false →
        (gatewayStep c id sremFails g ev).registry = start) ∧
    ((gatewayStep c id sremFails g ev).returned = true →
        (gatewayStep c id sremFails g ev).registry =
          if sremFails then start else SRem start id) ∧
    (g.returned = true → (gatewayStep c id sremFails g ev).returned = true) ∧
    (endsSession ev = true → (gatewayStep c id sremFails g ev).returned = true) := by
  cases ev with
  | read r =>
    by_cases hr : g.reading = true
    · by_cases hret : g.returned = true
      · simp [gatewayStep, hr, hret, inboundTurn, h3 hret]
      · have hret' : g.returned = false := by simpa using hret
        by_cases hturn : (inboundTurn c r).2 = true
        · have hne : endsSession (GatewayEvent.read r) = false := by
            cases r with
            | frame d => rfl
            | closeNormal => simp [inboundTurn] at hturn
            | failure e => simp [inboundTurn] at hturn
          simp [gatewayStep, hr, hret', hturn, hne, h2 hret']
        · simp [gatewayStep, hr, hret', hturn, handlerEnd, h2 hret']
    · have hr' : g.reading = false := by simpa using hr
      have hret := h1 hr'
      simp [gatewayStep, hr', hret, h3 hret]
  | incoming payload writeFails =>
    by_cases hret : g.returned = true
    · simp [gatewayStep, hret, h1, h3 hret]
    · have hret' : g.returned = false := by simpa using hret
      have hr : g.reading = true := by
        by_contra hc
        have := h1 (by simpa using hc)
        rw [hret'] at this
        exact Bool.noConfusion this
      cases writeFails with
      | true => simp [gatewayStep, hret', handlerEnd, h2 hret']
      | false => simp [gatewayStep, hret', hr, endsSession, h2 hret']
  | presence payload writeFails =>
    have he : endsSession (GatewayEvent.presence payload writeFails : GatewayEvent W)
        = false := rfl
    simp only [gatewayStep]
    split
    · exact ⟨h1, h2, h3, fun h => h, by simp [he]⟩
    · exact ⟨h1, h2, h3, fun h => h, by simp [he]⟩

theorem gateway_run {W : Type} (c : Codec W) (id : String) (sremFails : Bool)
    (start : List String) :
    ∀ (events : List (GatewayEvent W)) (g : Gateway W),
      (g.reading = false → g.returned = true) →
      (g.returned = false → g.registry = start) →
      (g.returned = true → g.registry = if sremFails then start else SRem start id) →
      ((events.foldl (gatewayStep c id sremFails) g).returned = false →
        (events.foldl (gatewayStep c id sremFails) g).registry = start) ∧
      ((events.foldl (gatewayStep c id sremFails) g).returned = true →
        (events.foldl (gatewayStep c id sremFails) g).registry =
          if sremFails then start else SRem start id) ∧
      (g.returned = true → (events.foldl (gatewayStep c id sremFails) g).returned = true) ∧
      ((∃ ev ∈ events, endsSession ev = true) →
        (events.foldl (gatewayStep c id sremFails) g).returned = true) := by
  intro events
  induction events with
  | nil =>
    intro g _ h2 h3
    exact ⟨h2, h3, fun h => h, by simp⟩
  | cons ev rest ih =>
    intro g h1 h2 h3
    obtain ⟨s1, s2, s3, s4, s5⟩ := gatewayStep_inv c id sremFails start g ev h1 h2 h3
    obtain ⟨r1, r2, r3, r4⟩ := ih (gatewayStep c id sremFails g ev) s1 s2 s3
    refine ⟨r1, r2, fun h => r3 (s4 h), ?_⟩
    rintro ⟨e, he, hends⟩
    rcases List.mem_cons.1 he with h | h
    · subst h
      exact r3 (s5 hends)
    · exact r4 ⟨e, h, hends⟩

theorem Chat_run {W : Type} (c : Codec W) (id : String) (errs : StoreErrors)
    (registry : List String) (events : List (GatewayEvent W)) (hid : id ≠ "") :
    Chat c id false false errs registry events =
      events.foldl (gatewayStep c id errs.SRem)
        { registry := registered errs registry id,
          reading := true, returned := false, panicked := false,
          published :=
            [("all", joinSnapshot c (if errs.SMembers then none else some registry) id)],
          written := [], friends := [] } := by
  simp [Chat, hid]

theorem Chat_connected {W : Type} (c : Codec W) (id : String) (errs : StoreErrors)
    (registry : List String) (events : List (GatewayEvent W)) (hid : id ≠ "") :
    ((Chat c id false false errs registry events).returned = false →
      (Chat c id false false errs registry events).registry = registered errs registry id) ∧
    ((Chat c id false false errs registry events).returned = true →
      (Chat c id false false errs registry events).registry = deregistered errs registry id) ∧
    ((∃ ev ∈ events, endsSession ev = true) →
      (Chat c id false false errs registry events).returned = true) := by
  have hrun := gateway_run c id errs.SRem (registered errs registry id) events
    { registry := registered errs registry id,
      reading := true, returned := false, panicked := false,
      published :=
        [("all", joinSnapshot c (if errs.SMembers then none else some registry) id)],
      written := [], friends := [] }
    (by simp) (by simp) (by simp)
  rw [Chat_run c id errs registry events hid]
  exact ⟨hrun.1, hrun.2.1, hrun.2.2.2⟩

/-- C11, as the claim states it, fails: bob has a connection and is registered, the
inbound read fails, the handler reaches `SRem` and returns; the store answers `SRem`
with an error, which is printed, and bob is still a member: the snapshot published
when carol joins next contains bob. -/
theorem C11_counterexample :
    (Chat jsonCodec "bob" false false { SMembers := false, SAdd := false, SRem := true }
        ["alice"] [GatewayEvent.read (ReadResult.failure "unexpected EOF")]).returned
      = true ∧
    (Chat jsonCodec "bob" false false { SMembers := false, SAdd := false, SRem := true }
        ["alice"] [GatewayEvent.read (ReadResult.failure "unexpected EOF")]).registry
      = ["alice", "bob"] ∧
    (jsonCodec.UnmarshalStrings
      (joinSnapshot jsonCodec
        (some (Chat jsonCodec "bob" false false
          { SMembers := false, SAdd := false, SRem := true }
          ["alice"] [GatewayEvent.read (ReadResult.failure "unexpected EOF")]).registry)
        "carol")).val = ["alice", "bob", "carol"] := by
  refine ⟨rfl, by decide, ?_⟩
  have h : (Chat jsonCodec "bob" false false
      { SMembers := false, SAdd := false, SRem := true }
      ["alice"] [GatewayEvent.read (ReadResult.failure "unexpected EOF")]).registry
        = ["alice", "bob"] := by decide
  rw [h]
  simp only [joinSnapshot, AllActiveUsers_some, Option.getD_some,
    jsonCodec_strings_roundtrip]
  rfl

/-- C11, amended. For every session that has a connection and has reached the
registration (a non-empty id, the subscription made): each of the three ends of the
loops (the inbound read fails with a normal closure, it fails with another error, a
write of the outbound loop fails) makes the handler return, and a handler that has
returned has called `SRem` for id: the registry is the one the session registered in
after that call.  When the store executes the call, id is not in the registry, the
other members are, and the snapshot published when a different user joins next does
not contain id. -/
theorem C11_no_ghost_presence {W : Type} (c : Codec W)
    (hrt : ∀ l : List String, (c.UnmarshalStrings (c.MarshalStrings l).val).val = l)
    (id : String) (errs : StoreErrors) (registry : List String)
    (events : List (GatewayEvent W)) (hid : id ≠ "") :
    ((∃ ev ∈ events, endsSession ev = true) →
      (Chat c id false false errs registry events).returned = true) ∧
    ((Chat c id false false errs registry events).returned = true →
      (Chat c id false false errs registry events).registry =
        if errs.SRem then registered errs registry id
        else SRem (registered errs registry id) id) ∧
    ((Chat c id false false errs registry events).returned = true → errs.SRem = false →
      id ∉ (Chat c id false false errs registry events).registry ∧
      (∀ x, x ≠ id → x ∈ registry →
        x ∈ (Chat c id false false errs registry events).registry) ∧
      ∀ other, other ≠ id →
        id ∉ (c.UnmarshalStrings
          (joinSnapshot c (some (Chat c id false false errs registry events).registry)
            other)).val) ∧
    ((Chat c id false false errs registry events).returned = false →
      (Chat c id false false errs registry events).registry = registered errs registry id) := by
  obtain ⟨k1, k2, k3⟩ := Chat_connected c id errs registry events hid
  refine ⟨k3, ?_, ?_, k1⟩
  · intro hret
    rw [k2 hret]
    rfl
  · intro hret hsrem
    have hreg : (Chat c id false false errs registry events).registry =
        SRem (registered errs registry id) id := by
      rw [k2 hret]
      simp [deregistered, hsrem]
    rw [hreg]
    refine ⟨not_mem_SRem _ _, ?_, ?_⟩
    · intro x hx hmem
      apply mem_SRem_of_ne hx
      unfold registered
      split
      · exact hmem
      · exact mem_SAdd_of_mem id hmem
    · intro other hother
      simp only [joinSnapshot, AllActiveUsers_some, Option.getD_some, hrt, List.mem_append,
        List.mem_singleton, not_or]
      exact ⟨not_mem_SRem _ _, fun h => hother h.symm⟩

theorem C11_no_ghost_presence_witness :
    (Chat jsonCodec "bob" false false { SMembers := false, SAdd := false, SRem := false }
        ["alice"]
        [GatewayEvent.read (ReadResult.frame goodChatFrame),
         GatewayEvent.read (ReadResult.failure "unexpected EOF")]).returned = true ∧
    "bob" ∉ (Chat jsonCodec "bob" false false { SMembers := false, SAdd := false, SRem := false }
        ["alice"]
        [GatewayEvent.read (ReadResult.frame goodChatFrame),
         GatewayEvent.read (ReadResult.failure "unexpected EOF")]).registry := by
  have h := C11_no_ghost_presence jsonCodec jsonCodec_strings_roundtrip "bob"
      { SMembers := false, SAdd := false, SRem := false } ["alice"]
      [GatewayEvent.read (ReadResult.frame goodChatFrame),
       GatewayEvent.read (ReadResult.failure "unexpected EOF")]
      (by decide)
  have hret := h.1 ⟨_, List.mem_cons_of_mem _ (List.mem_cons_self _ _), rfl⟩
  exact ⟨hret, (h.2.2.1 hret rfl).1⟩

/-- The session after a failed upgrade: whatever the events, it publishes its
snapshot, registers id (when the store executes `SAdd`) and ends in the panic of the
first read on the nil connection; the handler never reaches `SRem`, and id stays in
the registry and in the snapshot of the next join. -/
theorem failed_upgrade_stays_registered {W : Type} (c : Codec W)
    (hrt : ∀ l : List String, (c.UnmarshalStrings (c.MarshalStrings l).val).val = l)
    (id : String) (errs : StoreErrors) (registry : List String)
    (events : List (GatewayEvent W)) (hid : id ≠ "") (hsadd : errs.SAdd = false) :
    (Chat c id true false errs registry events).panicked = true ∧
    (Chat c id true false errs registry events).returned = false ∧
    (Chat c id true false errs registry events).registry = SAdd registry id ∧
    id ∈ (Chat c id true false errs registry events).registry ∧
    ∀ other, id ∈ (c.UnmarshalStrings
      (joinSnapshot c (some (Chat c id true false errs registry events).registry)
        other)).val := by
  have hrun : Chat c id true false errs registry events =
      { registry := SAdd registry id, reading := false, returned := false,
        panicked := true,
        published :=
          [("all", joinSnapshot c (if errs.SMembers then none else some registry) id)],
        written := [], friends := [] } := by
    simp [Chat, hid, registered, hsadd]
  rw [hrun]
  refine ⟨rfl, rfl, rfl, mem_SAdd_self _ _, ?_⟩
  intro other
  simp only [joinSnapshot, AllActiveUsers_some, Option.getD_some, hrt, List.mem_append]
  exact Or.inl (mem_SAdd_self _ _)

theorem failed_upgrade_stays_registered_witness :
    (Chat jsonCodec "bob" true false { SMembers := false, SAdd := false, SRem := false }
        ["alice"] [GatewayEvent.read ReadResult.closeNormal]).registry = ["alice", "bob"] :=
  (failed_upgrade_stays_registered jsonCodec jsonCodec_strings_roundtrip "bob"
    { SMembers := false, SAdd := false, SRem := false } ["alice"]
    [GatewayEvent.read ReadResult.closeNormal] (by decide) rfl).2.2.1

end Chatty
